import Mathlib

/-!
Verification of the notion-puller repository: a shallow embedding of its
reference normalizer, rich-text renderer, block renderer, document
assembler, CSV exporter and traversal orchestrator, with theorems settling
the specification claims C1 to C10.

JavaScript strings are modelled as Lean `String`s (the inputs involved are
ASCII or plain Unicode text, where the two agree); JavaScript array and
string helpers (`join`, `split`, `trim`, …) are re-implemented below with
their ECMAScript semantics.
-/

namespace NP

/-! ## JavaScript string helpers -/

/-- `Array.prototype.join(sep)` for an array of strings. -/
def jsJoin (sep : String) : List String → String
  | [] => ""
  | [x] => x
  | x :: y :: rest => x ++ sep ++ jsJoin sep (y :: rest)

/-- Splitting a character list at every occurrence of `sep`
(ECMAScript `split`: n separators yield n+1 pieces, empties kept). -/
def splitCharList (sep : Char) : List Char → List (List Char)
  | [] => [[]]
  | c :: rest =>
    match splitCharList sep rest with
    | [] => [[]]
    | p :: ps => if c == sep then [] :: p :: ps else (c :: p) :: ps

/-- `String.prototype.split("\n")`. -/
def jsSplitNl (s : String) : List String :=
  (splitCharList '\n' s.data).map (fun l => String.mk l)

/-- Whitespace class used by ECMAScript `trim`/`\s` (ASCII part — code
points 32, 9, 10, 13, 11, 12; the inputs handled by this program contain no
exotic Unicode spaces). -/
def isJsWs (c : Char) : Bool :=
  decide (c.toNat = 32) || decide (c.toNat = 9) || decide (c.toNat = 10) ||
  decide (c.toNat = 13) || decide (c.toNat = 11) || decide (c.toNat = 12)

/-- `String.prototype.trim()`. -/
def jsTrim (s : String) : String :=
  String.mk (((s.data.dropWhile isJsWs).reverse.dropWhile isJsWs).reverse)

/-- `String.prototype.trimEnd()`. -/
def jsTrimEnd (s : String) : String :=
  String.mk ((s.data.reverse.dropWhile isJsWs).reverse)

/-- `String.prototype.toLowerCase()` (ASCII range; the strings it is applied
to are matched hexadecimal/dash strings). -/
def jsToLower (s : String) : String :=
  String.mk (s.data.map Char.toLower)

/-- `String.prototype.repeat(n)`. -/
def jsRepeat (s : String) : Nat → String
  | 0 => ""
  | n + 1 => s ++ jsRepeat s n

/-! ## Rich text data model (src/converters/rich-text.ts) -/

/-- The annotation set carried by every rich text span. -/
structure Annotations where
  bold : Bool
  italic : Bool
  strikethrough : Bool
  underline : Bool
  code : Bool
  color : String
deriving DecidableEq, Repr

/-- A Notion date value: a start bound and an optional end bound
(`end` is a Lean keyword, so the field is named `endv`). -/
structure DateValue where
  start : String
  endv : Option String
deriving DecidableEq, Repr

/-- The discriminated payload of a mention span. -/
inductive MentionData where
  | page
  | database
  | user
  | date (d : DateValue)
  | link_preview
  | other
deriving DecidableEq, Repr

/-- The content source of a rich text span: literal text, a mention, or an
inline equation expression. -/
inductive RichTextContent where
  | text (content : String)
  | mention (m : MentionData)
  | equation (expression : String)
deriving DecidableEq, Repr

/-- One rich text span, as delivered by the API: a content source plus the
annotation set, the fallback plain text, and an optional hyperlink target. -/
structure RichTextItem where
  content : RichTextContent
  annotations : Annotations
  plainText : String
  href : Option String
deriving DecidableEq, Repr

/-- `renderMention` from rich-text.ts. Page, database, user and
link-preview mentions (and the default arm) render the span's plain text;
date mentions join the bounds. The separator string is the literal three
characters U+00E2 U+2020 U+2019 found in the source file (a double-encoded
UTF-8 arrow), reproduced here byte-for-byte. -/
def renderMention (m : MentionData) (plainText : String) : String :=
  match m with
  | .page => plainText
  | .database => plainText
  | .user => plainText
  | .date d =>
    match d.endv with
    | some e => d.start ++ " \u00E2\u2020\u2019 " ++ e
    | none => d.start
  | .link_preview => plainText
  | .other => plainText

/-- `applyAnnotations` from rich-text.ts: empty text is returned unchanged
(the `if (!text) return text` guard); inline code wraps in backticks and
stops; otherwise strikethrough, then emphasis, then underline. -/
def applyAnnotations (text : String) (ann : Annotations) : String :=
  if text = "" then text
  else if ann.code then "`" ++ text ++ "`"
  else
    let t1 := if ann.strikethrough then "~~" ++ text ++ "~~" else text
    let t2 :=
      if ann.bold && ann.italic then "***" ++ t1 ++ "***"
      else if ann.bold then "**" ++ t1 ++ "**"
      else if ann.italic then "*" ++ t1 ++ "*"
      else t1
    if ann.underline then "<u>" ++ t2 ++ "</u>" else t2

/-- Hyperlink wrapping at the end of `renderRichTextItem`: the TypeScript
guard `if (item.href)` skips both `null` and the empty string (falsy). -/
def wrapHref (t : String) (href : Option String) : String :=
  match href with
  | some h => if h = "" then t else "[" ++ t ++ "](" ++ h ++ ")"
  | none => t

/-- `renderRichTextItem` from rich-text.ts: equations return early and
bypass annotations and links; text and mention spans are annotated and then
link-wrapped. -/
def renderRichTextItem (item : RichTextItem) : String :=
  match item.content with
  | .equation e => "$" ++ e ++ "$"
  | .text s => wrapHref (applyAnnotations s item.annotations) item.href
  | .mention m =>
    wrapHref (applyAnnotations (renderMention m item.plainText) item.annotations) item.href

/-- `renderRichText` from rich-text.ts: concatenation of all spans with no
separator. -/
def renderRichText (items : List RichTextItem) : String :=
  String.join (items.map renderRichTextItem)

/-! ## Block data model (src/converters/blocks.ts, src/notion/pages.ts) -/

/-- A block or callout icon (only the emoji variant is rendered). -/
inductive Icon where
  | emoji (e : String)
  | other (tag : String)
deriving DecidableEq, Repr

/-- The source of an image payload: an external URL or a Notion-hosted
file URL. -/
inductive FileSource where
  | external (url : String)
  | file (url : String)
deriving DecidableEq, Repr

/-- The loosely-typed file payload consumed by `renderFileBlock`
(video/audio/file/pdf blocks): a type tag, an optional caption, and the
URL variants reached through optional chaining in the source. -/
structure FileRef where
  type_ : String
  caption : Option (List RichTextItem)
  externalUrl : Option String
  fileUrl : Option String
deriving DecidableEq, Repr

/-- The discriminated kind (with its payload) of a content block, as
dispatched on by `renderBlock`. The `unsupported` constructor carries the
type string of any block kind outside the recognized list. -/
inductive BlockKind where
  | paragraph (rich_text : List RichTextItem)
  | heading_1 (rich_text : List RichTextItem)
  | heading_2 (rich_text : List RichTextItem)
  | heading_3 (rich_text : List RichTextItem)
  | bulleted_list_item (rich_text : List RichTextItem)
  | numbered_list_item (rich_text : List RichTextItem)
  | to_do (checked : Bool) (rich_text : List RichTextItem)
  | code (language : String) (rich_text : List RichTextItem) (caption : List RichTextItem)
  | quote (rich_text : List RichTextItem)
  | callout (icon : Option Icon) (rich_text : List RichTextItem)
  | divider
  | image (source : FileSource) (caption : List RichTextItem)
  | video (f : FileRef)
  | audio (f : FileRef)
  | file (f : FileRef)
  | pdf (f : FileRef)
  | bookmark (url : String) (caption : List RichTextItem)
  | embed (url : String) (caption : List RichTextItem)
  | link_preview (url : String)
  | toggle (rich_text : List RichTextItem)
  | equation (expression : String)
  | table
  | table_row (cells : List (List RichTextItem))
  | table_of_contents
  | breadcrumb
  | column_list
  | column
  | child_page (title : String)
  | child_database (title : String)
  | synced_block
  | unsupported (tag : String)
deriving DecidableEq, Repr

/-- `BlockWithChildren` from pages.ts: a block kind with its
recursively-fetched children attached. -/
inductive Block where
  | mk (id : String) (kind : BlockKind) (children : List Block)

/-- The kind of a block. -/
def Block.kind : Block → BlockKind
  | .mk _ k _ => k

/-- The attached children of a block. -/
def Block.children : Block → List Block
  | .mk _ _ cs => cs

/-- The identifier of a block. -/
def Block.id : Block → String
  | .mk i _ _ => i

/-- The `block.type` discriminator string of a kind, as the TypeScript
switch reads it. -/
def blockTypeName : BlockKind → String
  | .paragraph _ => "paragraph"
  | .heading_1 _ => "heading_1"
  | .heading_2 _ => "heading_2"
  | .heading_3 _ => "heading_3"
  | .bulleted_list_item _ => "bulleted_list_item"
  | .numbered_list_item _ => "numbered_list_item"
  | .to_do _ _ => "to_do"
  | .code _ _ _ => "code"
  | .quote _ => "quote"
  | .callout _ _ => "callout"
  | .divider => "divider"
  | .image _ _ => "image"
  | .video _ => "video"
  | .audio _ => "audio"
  | .file _ => "file"
  | .pdf _ => "pdf"
  | .bookmark _ _ => "bookmark"
  | .embed _ _ => "embed"
  | .link_preview _ => "link_preview"
  | .toggle _ => "toggle"
  | .equation _ => "equation"
  | .table => "table"
  | .table_row _ => "table_row"
  | .table_of_contents => "table_of_contents"
  | .breadcrumb => "breadcrumb"
  | .column_list => "column_list"
  | .column => "column"
  | .child_page _ => "child_page"
  | .child_database _ => "child_database"
  | .synced_block => "synced_block"
  | .unsupported tag => tag

/-- `isListItem` from blocks.ts: the three list-item kinds grouped by the
assembler. -/
def isListItem (type_ : String) : Bool :=
  type_ == "bulleted_list_item" || type_ == "numbered_list_item" || type_ == "to_do"

/-- `renderIcon` from blocks.ts: an emoji icon followed by a space;
anything else (or no icon) renders nothing. -/
def renderIcon : Option Icon → String
  | none => ""
  | some (.emoji e) => e ++ " "
  | some (.other _) => ""

/-- `renderImage` from blocks.ts. -/
def renderImage (source : FileSource) (caption : List RichTextItem) : String :=
  let c := renderRichText caption
  let url := match source with | .external u => u | .file u => u
  "![" ++ c ++ "](" ++ url ++ ")"

/-- `renderFileBlock` from blocks.ts: label prefers the caption (falsy
check), URL is taken from the variant matching the type tag. -/
def renderFileBlock (f : FileRef) (label : String) : String :=
  let caption := match f.caption with | some c => renderRichText c | none => ""
  let url :=
    if f.type_ == "external" then (match f.externalUrl with | some u => u | none => "")
    else if f.type_ == "file" then (match f.fileUrl with | some u => u | none => "")
    else ""
  let display := if caption = "" then label else caption
  if url = "" then display else "[" ++ display ++ "](" ++ url ++ ")"

/-- Pipe escaping of a table cell: `replace(/\|/g, "\\|")`. -/
def escapePipes (s : String) : String :=
  String.mk (s.data.foldr (fun c acc => if c == '|' then '\\' :: '|' :: acc else c :: acc) [])

/-- The row loop of `renderTable`: non-`table_row` children are skipped but
still advance the index, and the `---` separator is emitted after the child
at index 0. -/
def renderTableRows : List Block → Nat → List String
  | [], _ => []
  | b :: rest, i =>
    match b.kind with
    | .table_row cells =>
      let cellsR := cells.map (fun cell => escapePipes (renderRichText cell))
      let line := "| " ++ jsJoin " | " cellsR ++ " |"
      let sep := if i == 0 then ["| " ++ jsJoin " | " (cellsR.map (fun _ => "---")) ++ " |"] else []
      (line :: sep) ++ renderTableRows rest (i + 1)
    | _ => renderTableRows rest (i + 1)

/-- `renderTable` from blocks.ts: a GFM pipe table over the `table_row`
children; an empty child list renders the empty string. -/
def renderTable (b : Block) : String :=
  if b.children.isEmpty then "" else jsJoin "\n" (renderTableRows b.children 0)

/-- Uppercase hexadecimal digit, for percent-encoding. -/
def hexDigitUpper (n : Nat) : Char :=
  if n < 10 then Char.ofNat (48 + n) else Char.ofNat (55 + n)

/-- Characters left unescaped by ECMAScript `encodeURIComponent`. -/
def isUriUnreserved (c : Char) : Bool :=
  c.isAlpha || c.isDigit || c == '-' || c == '_' || c == '.' || c == '!' ||
  c == '~' || c == '*' || c == '\'' || c == '(' || c == ')'

/-- ECMAScript `encodeURIComponent`: unreserved characters kept, everything
else percent-encoded per UTF-8 byte. -/
def encodeURIComponent (s : String) : String :=
  String.mk (s.data.foldr
    (fun c acc =>
      if isUriUnreserved c then c :: acc
      else (String.utf8EncodeChar c).foldr
        (fun b acc2 => '%' :: hexDigitUpper (b.toNat / 16) :: hexDigitUpper (b.toNat % 16) :: acc2)
        acc)
    [])

/-- `renderBlock` from blocks.ts: one block's own markdown (children
excluded, except for tables which consume their row children here). The
`table_row` kind has no case in the TypeScript switch and falls through to
the default arm. -/
def renderBlock (b : Block) : String :=
  match b.kind with
  | .paragraph rt => renderRichText rt
  | .heading_1 rt => "# " ++ renderRichText rt
  | .heading_2 rt => "## " ++ renderRichText rt
  | .heading_3 rt => "### " ++ renderRichText rt
  | .bulleted_list_item rt => "- " ++ renderRichText rt
  | .numbered_list_item rt => "1. " ++ renderRichText rt
  | .to_do checked rt => "- " ++ (if checked then "[x]" else "[ ]") ++ " " ++ renderRichText rt
  | .code language rt cap =>
    let lang := if language == "plain text" then "" else language
    let codeS := renderRichText rt
    let caption := renderRichText cap
    let result := "```" ++ lang ++ "\n" ++ codeS ++ "\n```"
    if caption = "" then result else result ++ "\n*" ++ caption ++ "*"
  | .quote rt => jsJoin "\n" ((jsSplitNl (renderRichText rt)).map (fun line => "> " ++ line))
  | .callout icon rt => "> " ++ renderIcon icon ++ renderRichText rt
  | .divider => "---"
  | .image src cap => renderImage src cap
  | .video f => renderFileBlock f "video"
  | .audio f => renderFileBlock f "audio"
  | .file f => renderFileBlock f "file"
  | .pdf f => renderFileBlock f "pdf"
  | .bookmark url cap =>
    let caption := renderRichText cap
    let label := if caption = "" then url else caption
    "[" ++ label ++ "](" ++ url ++ ")"
  | .embed url cap =>
    let caption := renderRichText cap
    let label := if caption = "" then "embed" else caption
    "[" ++ label ++ "](" ++ url ++ ")"
  | .link_preview url => "[" ++ url ++ "](" ++ url ++ ")"
  | .toggle rt => "**" ++ renderRichText rt ++ "**"
  | .equation expr => "$$\n" ++ expr ++ "\n$$"
  | .table => renderTable b
  | .table_of_contents => "<!-- table of contents -->"
  | .breadcrumb => ""
  | .column_list => ""
  | .column => ""
  | .child_page title =>
    "**[" ++ title ++ "](./" ++ encodeURIComponent title ++ ".md)**"
  | .child_database title =>
    "**[" ++ title ++ "](./" ++ encodeURIComponent title ++ "/_index.csv)**"
  | .synced_block => ""
  | .table_row _ => "<!-- unsupported: " ++ "table_row" ++ " -->"
  | .unsupported tag => "<!-- unsupported: " ++ tag ++ " -->"

/-! ## Claim C4: the annotation pipeline as the specification words it -/

/-- Modelled from the spec's wording of the annotation order (claim C4):
the conditional wrapping pipeline applied to the running string, with no
empty-text guard. To be compared against `applyAnnotations`. -/
def claimAnnotate (text : String) (ann : Annotations) : String :=
  if ann.code then "`" ++ text ++ "`"
  else
    let t1 := if ann.strikethrough then "~~" ++ text ++ "~~" else text
    let t2 :=
      if ann.bold && ann.italic then "***" ++ t1 ++ "***"
      else if ann.bold then "**" ++ t1 ++ "**"
      else if ann.italic then "*" ++ t1 ++ "*"
      else t1
    if ann.underline then "<u>" ++ t2 ++ "</u>" else t2

/-- On non-empty text the source's `applyAnnotations` agrees with the
spec's pipeline. -/
theorem applyAnnotations_of_ne (s : String) (ann : Annotations) (hs : s ≠ "") :
    applyAnnotations s ann = claimAnnotate s ann := by
  unfold applyAnnotations claimAnnotate
  rw [if_neg hs]

/-- Link wrapping with no target is the identity. -/
theorem wrapHref_none (t : String) : wrapHref t none = t := rfl

/-- Link wrapping with a non-empty target produces the markdown link. -/
theorem wrapHref_some (t h : String) (hh : h ≠ "") :
    wrapHref t (some h) = "[" ++ t ++ "](" ++ h ++ ")" :=
  if_neg hh

/-- C2 (counterexample): a `table_of_contents` block does not render to the
empty string, contradicting the claim that all five structural kinds do. -/
theorem C2_toc_counterexample :
    renderBlock (Block.mk "t" .table_of_contents []) ≠ "" := by decide

/-- C2 (amended): breadcrumb, column-list, column and synced-block blocks
render to the empty string whatever their children are; a table-of-contents
block instead renders the fixed HTML comment. -/
theorem C2_structural_kinds (i : String) (cs : List Block) :
    renderBlock (Block.mk i .breadcrumb cs) = ""
    ∧ renderBlock (Block.mk i .column_list cs) = ""
    ∧ renderBlock (Block.mk i .column cs) = ""
    ∧ renderBlock (Block.mk i .synced_block cs) = ""
    ∧ renderBlock (Block.mk i .table_of_contents cs) = "<!-- table of contents -->" :=
  ⟨rfl, rfl, rfl, rfl, rfl⟩

/-- C3 (code bug): a date mention with an end bound renders with the
three-character sequence U+00E2 U+2020 U+2019 (the UTF-8 double-encoding of
the arrow) between the bounds, not with the arrow character U+2192 the
claim states; a date mention without an end bound renders just the start
bound. -/
theorem C3_date_mention_encoding :
    renderMention (.date ⟨"2024-01-01", some "2024-01-02"⟩) "d"
        = "2024-01-01 â†’ 2024-01-02"
    ∧ renderMention (.date ⟨"2024-01-01", some "2024-01-02"⟩) "d"
        ≠ "2024-01-01 → 2024-01-02"
    ∧ renderMention (.date ⟨"2024-01-01", none⟩) "d" = "2024-01-01" :=
  ⟨rfl, by decide, rfl⟩

/-- C4 (counterexample): a literal-text span with empty content and the
`code` annotation set renders to the empty string, not to the
backtick-wrapped text the claim demands for every span. -/
theorem C4_empty_code_counterexample :
    renderRichTextItem ⟨.text "", ⟨false, false, false, false, true, "default"⟩, "", none⟩ = ""
    ∧ renderRichTextItem ⟨.text "", ⟨false, false, false, false, true, "default"⟩, "", none⟩
        ≠ claimAnnotate "" ⟨false, false, false, false, true, "default"⟩ := by
  constructor
  · rfl
  · decide

/-- C4 (amended): for every literal-text or mention span whose content
string is non-empty, the renderer applies annotations exactly in the
claimed order (code exclusively first, then strikethrough, emphasis,
underline) and finally wraps the fully-annotated text as a link when a
non-empty hyperlink target is present. -/
theorem C4_annotation_order (s : String) (ann : Annotations) (pt : String) (hs : s ≠ "") :
    renderRichTextItem ⟨.text s, ann, pt, none⟩ = claimAnnotate s ann
    ∧ (∀ h : String, h ≠ "" →
        renderRichTextItem ⟨.text s, ann, pt, some h⟩
          = "[" ++ claimAnnotate s ann ++ "](" ++ h ++ ")")
    ∧ (∀ m : MentionData, renderMention m pt ≠ "" →
        renderRichTextItem ⟨.mention m, ann, pt, none⟩ = claimAnnotate (renderMention m pt) ann
        ∧ ∀ h : String, h ≠ "" →
            renderRichTextItem ⟨.mention m, ann, pt, some h⟩
              = "[" ++ claimAnnotate (renderMention m pt) ann ++ "](" ++ h ++ ")") := by
  refine ⟨?_, fun h hh => ?_, fun m hm => ⟨?_, fun h hh => ?_⟩⟩
  · show wrapHref (applyAnnotations s ann) none = _
    rw [applyAnnotations_of_ne s ann hs, wrapHref_none]
  · show wrapHref (applyAnnotations s ann) (some h) = _
    rw [applyAnnotations_of_ne s ann hs, wrapHref_some _ h hh]
  · show wrapHref (applyAnnotations (renderMention m pt) ann) none = _
    rw [applyAnnotations_of_ne (renderMention m pt) ann hm, wrapHref_none]
  · show wrapHref (applyAnnotations (renderMention m pt) ann) (some h) = _
    rw [applyAnnotations_of_ne (renderMention m pt) ann hm, wrapHref_some _ h hh]

/-- C4 witness: the amended theorem applied at a concrete bold, italic,
strikethrough, underlined span with a hyperlink. -/
theorem C4_annotation_order_witness :
    renderRichTextItem ⟨.text "x", ⟨true, true, true, true, false, "default"⟩, "x", some "u"⟩
      = "[" ++ claimAnnotate "x" ⟨true, true, true, true, false, "default"⟩ ++ "](" ++ "u" ++ ")" :=
  (C4_annotation_order "x" ⟨true, true, true, true, false, "default"⟩ "x"
    (by decide)).2.1 "u" (by decide)

/-- C9: a block of unrecognized kind renders as an HTML comment naming that
kind; `renderBlock` is a total Lean function, so it never throws. -/
theorem C9_unsupported_kind_comment (i tag : String) (cs : List Block) :
    renderBlock (Block.mk i (.unsupported tag) cs) = "<!-- unsupported: " ++ tag ++ " -->" :=
  rfl

/-- C10: a literal-text or mention span whose content string is empty
receives no annotation markers at all regardless of the annotation flags,
and a (non-empty) hyperlink target still wraps it as an empty-text link. -/
theorem C10_empty_content_no_markers (ann : Annotations) (pt : String) :
    renderRichTextItem ⟨.text "", ann, pt, none⟩ = ""
    ∧ (∀ h : String, h ≠ "" →
        renderRichTextItem ⟨.text "", ann, pt, some h⟩ = "[](" ++ h ++ ")")
    ∧ (∀ m : MentionData, renderMention m pt = "" →
        renderRichTextItem ⟨.mention m, ann, pt, none⟩ = ""
        ∧ ∀ h : String, h ≠ "" →
            renderRichTextItem ⟨.mention m, ann, pt, some h⟩ = "[](" ++ h ++ ")") := by
  have hempty : ∀ a : Annotations, applyAnnotations "" a = "" := by
    intro a
    unfold applyAnnotations
    rw [if_pos rfl]
  refine ⟨?_, fun h hh => ?_, fun m hm => ⟨?_, fun h hh => ?_⟩⟩
  · show wrapHref (applyAnnotations "" ann) none = ""
    rw [hempty, wrapHref_none]
  · show wrapHref (applyAnnotations "" ann) (some h) = _
    rw [hempty, wrapHref_some _ h hh]
    rfl
  · show wrapHref (applyAnnotations (renderMention m pt) ann) none = ""
    rw [hm, hempty, wrapHref_none]
  · show wrapHref (applyAnnotations (renderMention m pt) ann) (some h) = _
    rw [hm, hempty, wrapHref_some _ h hh]
    rfl

/-! ## Reference normalizer (src/notion/url-parser.ts) -/

/-- A hexadecimal digit of either case, the character class of the
`[0-9a-f]` / `i`-flag regexes (code points of 0-9, a-f, A-F). -/
def isHexCI (c : Char) : Bool :=
  (decide (48 ≤ c.toNat) && decide (c.toNat ≤ 57)) ||
  (decide (97 ≤ c.toNat) && decide (c.toNat ≤ 102)) ||
  (decide (65 ≤ c.toNat) && decide (c.toNat ≤ 70))

/-- The `UUID_BARE` regex `/^[0-9a-f]{32}$/i`. -/
def uuidBareTest (s : String) : Bool :=
  (s.data.length == 32) && s.data.all isHexCI

/-- Consume exactly `n` case-insensitive hex characters. -/
def eatHex : Nat → List Char → Option (List Char)
  | 0, cs => some cs
  | _ + 1, [] => none
  | n + 1, c :: cs => if isHexCI c then eatHex n cs else none

/-- Consume one dash. -/
def eatDash : List Char → Option (List Char)
  | '-' :: cs => some cs
  | _ => none

/-- The 8-4-4-4-12 dashed pattern over a character list (anchored at both
ends), the body of the `UUID_DASHED` regex. -/
def uuidDashedData (cs : List Char) : Bool :=
  (((((((((eatHex 8 cs).bind eatDash).bind (eatHex 4)).bind eatDash).bind
    (eatHex 4)).bind eatDash).bind (eatHex 4)).bind eatDash).bind (eatHex 12)) == some []

/-- The `UUID_DASHED` regex `/^hhhhhhhh-hhhh-hhhh-hhhh-hhhhhhhhhhhh$/i`. -/
def uuidDashedTest (s : String) : Bool :=
  uuidDashedData s.data

/-- `String.prototype.slice(a, b)` for `0 ≤ a ≤ b`. -/
def jsSlice (s : String) (a b : Nat) : String :=
  String.mk ((s.data.drop a).take (b - a))

/-- `toDashedUuid` from url-parser.ts: dashes inserted at offsets
8/12/16/20 of a bare 32-character hex string. -/
def toDashedUuid (hex : String) : String :=
  jsJoin "-" [jsSlice hex 0 8, jsSlice hex 8 12, jsSlice hex 12 16,
    jsSlice hex 16 20, jsSlice hex 20 32]

/-- `extractIdFromPath` from url-parser.ts: strip query/hash, take the last
non-empty slash segment, and match a trailing 32-hex run or a trailing
dashed UUID (whose dashes are then removed). -/
def extractIdFromPath (path : String) : Option String :=
  let clean := (path.data.takeWhile (fun c => c != '?')).takeWhile (fun c => c != '#')
  let segments := (splitCharList '/' clean).filter (fun l => !l.isEmpty)
  match segments.getLast? with
  | none => none
  | some last =>
    let n := last.length
    if 32 ≤ n && (last.drop (n - 32)).all isHexCI then
      some (String.mk (last.drop (n - 32)))
    else if 36 ≤ n && uuidDashedData (last.drop (n - 36)) then
      some (String.mk ((last.drop (n - 36)).filter (fun c => c != '-')))
    else
      none

/-- Boolean prefix test on character lists (`String.prototype.startsWith`
restricted to the ASCII scheme strings it is applied to). -/
def listPrefixOf : List Char → List Char → Bool
  | [], _ => true
  | _ :: _, [] => false
  | a :: as, b :: bs => a == b && listPrefixOf as bs

/-- Boolean infix test on character lists. -/
def listInfixOf (sub : List Char) : List Char → Bool
  | [] => listPrefixOf sub []
  | c :: rest => listPrefixOf sub (c :: rest) || listInfixOf sub rest

/-- The WHATWG `URL` constructor, reduced to the two members the source
reads (boundary model of a runtime builtin): the lower-cased hostname and
the pathname, for an `http(s)` URL; `none` models a constructor throw. -/
def urlParse (s : String) : Option (String × String) :=
  let afterScheme :=
    if listPrefixOf "https://".data s.data then some (s.data.drop 8)
    else if listPrefixOf "http://".data s.data then some (s.data.drop 7)
    else none
  match afterScheme with
  | none => none
  | some rest =>
    let authority := rest.takeWhile (fun c => c != '/' && c != '?' && c != '#')
    let afterAuth := rest.drop authority.length
    let hostPort :=
      match (splitCharList '@' authority).getLast? with
      | some hp => hp
      | none => authority
    let host := (hostPort.takeWhile (fun c => c != ':')).map Char.toLower
    if host.isEmpty then none
    else some (String.mk host, String.mk (afterAuth.takeWhile (fun c => c != '?' && c != '#')))

/-- `String.prototype.includes(sub)`. -/
def jsIncludes (s sub : String) : Bool :=
  listInfixOf sub.data s.data

/-- `ParsedReference` from url-parser.ts. -/
structure ParsedReference where
  id : String
deriving DecidableEq, Repr

deriving instance DecidableEq for Except

/-- `parseNotionReference` from url-parser.ts; a thrown `Error` is modelled
as `Except.error` carrying the message. -/
def parseNotionReference (input : String) : Except String ParsedReference :=
  let trimmed := jsTrim input
  if uuidBareTest trimmed then .ok ⟨toDashedUuid trimmed⟩
  else if uuidDashedTest trimmed then .ok ⟨jsToLower trimmed⟩
  else if listPrefixOf "http://".data trimmed.data || listPrefixOf "https://".data trimmed.data then
    match urlParse trimmed with
    | none => .error ("Invalid URL: " ++ trimmed)
    | some (hostname, pathname) =>
      if !(jsIncludes hostname "notion") then .error ("Not a Notion URL: " ++ trimmed)
      else
        match extractIdFromPath pathname with
        | none => .error ("Could not extract a Notion ID from URL: " ++ trimmed)
        | some hex => .ok ⟨toDashedUuid hex⟩
  else
    .error ("Unrecognized Notion reference: \"" ++ trimmed ++
      "\". Expected a page/database ID or Notion URL.")

/-! ## Claim C1: bare versus dashed normalization -/

/-- A lowercase hexadecimal digit (code points of 0-9 and a-f): the
character class of the amended claim C1. -/
def isLowerHex (c : Char) : Bool :=
  (decide (48 ≤ c.toNat) && decide (c.toNat ≤ 57)) ||
  (decide (97 ≤ c.toNat) && decide (c.toNat ≤ 102))

theorem hexCI_of_lower (c : Char) (h : isLowerHex c = true) : isHexCI c = true := by
  simp only [isLowerHex, Bool.or_eq_true, Bool.and_eq_true, decide_eq_true_eq] at h
  simp only [isHexCI, Bool.or_eq_true, Bool.and_eq_true, decide_eq_true_eq]
  tauto

theorem ws_false_of_lower (c : Char) (h : isLowerHex c = true) : isJsWs c = false := by
  rw [Bool.eq_false_iff]
  intro hw
  simp only [isLowerHex, Bool.or_eq_true, Bool.and_eq_true, decide_eq_true_eq] at h
  simp only [isJsWs, Bool.or_eq_true, decide_eq_true_eq] at hw
  omega

theorem ws_false_of_dash_or_lower (c : Char) (h : isLowerHex c = true ∨ c = '-') :
    isJsWs c = false := by
  rcases h with h | h
  · exact ws_false_of_lower c h
  · subst h; decide

theorem toLower_of_lower (c : Char) (h : isLowerHex c = true) : Char.toLower c = c := by
  simp only [isLowerHex, Bool.or_eq_true, Bool.and_eq_true, decide_eq_true_eq] at h
  unfold Char.toLower
  rw [if_neg]
  omega

theorem dropWhile_eq_self (p : Char → Bool) (l : List Char) (h : ∀ c ∈ l, p c = false) :
    List.dropWhile p l = l := by
  cases l with
  | nil => rfl
  | cons c cs =>
    rw [List.dropWhile_cons, h c (List.mem_cons_self c cs)]
    simp

theorem jsTrim_eq_self (s : String) (h : ∀ c ∈ s.data, isJsWs c = false) : jsTrim s = s := by
  unfold jsTrim
  rw [dropWhile_eq_self _ _ h,
    dropWhile_eq_self _ _ (fun c hc => h c (List.mem_reverse.mp hc)),
    List.reverse_reverse]

theorem mapToLower_eq_self (l : List Char) (h : ∀ c ∈ l, isLowerHex c = true ∨ c = '-') :
    l.map Char.toLower = l := by
  induction l with
  | nil => rfl
  | cons c cs ih =>
    rw [List.map_cons, ih (fun x hx => h x (List.mem_cons_of_mem c hx))]
    rcases h c (List.mem_cons_self c cs) with hc | hc
    · rw [toLower_of_lower c hc]
    · subst hc; rfl

theorem uuidBareTest_true (s : String) (hlen : s.data.length = 32)
    (hhex : ∀ c ∈ s.data, isLowerHex c = true) : uuidBareTest s = true := by
  unfold uuidBareTest
  rw [hlen]
  simp only [beq_self_eq_true, Bool.true_and, List.all_eq_true]
  exact fun c hc => hexCI_of_lower c (hhex c hc)

theorem toDashedUuid_data (s : String) :
    (toDashedUuid s).data
      = (s.data.take 8) ++ ('-' :: ((s.data.drop 8).take 4 ++ ('-' :: ((s.data.drop 12).take 4
        ++ ('-' :: ((s.data.drop 16).take 4 ++ ('-' :: (s.data.drop 20).take 12))))))) := by
  simp [toDashedUuid, jsJoin, jsSlice, String.data_append]

theorem toDashedUuid_length (s : String) (hlen : s.data.length = 32) :
    (toDashedUuid s).data.length = 36 := by
  rw [toDashedUuid_data]
  simp [hlen]

theorem toDashedUuid_mem (s : String) (c : Char) (hc : c ∈ (toDashedUuid s).data) :
    c ∈ s.data ∨ c = '-' := by
  rw [toDashedUuid_data] at hc
  rcases List.mem_append.mp hc with h | h
  · exact .inl (List.take_subset _ _ h)
  rcases List.mem_cons.mp h with h | h
  · exact .inr h
  rcases List.mem_append.mp h with h | h
  · exact .inl (List.drop_subset _ _ (List.take_subset _ _ h))
  rcases List.mem_cons.mp h with h | h
  · exact .inr h
  rcases List.mem_append.mp h with h | h
  · exact .inl (List.drop_subset _ _ (List.take_subset _ _ h))
  rcases List.mem_cons.mp h with h | h
  · exact .inr h
  rcases List.mem_append.mp h with h | h
  · exact .inl (List.drop_subset _ _ (List.take_subset _ _ h))
  rcases List.mem_cons.mp h with h | h
  · exact .inr h
  exact .inl (List.drop_subset _ _ (List.take_subset _ _ h))

theorem uuidBareTest_dashed_false (s : String) (hlen : s.data.length = 32) :
    uuidBareTest (toDashedUuid s) = false := by
  unfold uuidBareTest
  rw [toDashedUuid_length s hlen]
  simp

theorem eatHex_append (g r : List Char) (hg : ∀ c ∈ g, isHexCI c = true) :
    eatHex g.length (g ++ r) = some r := by
  induction g with
  | nil => rfl
  | cons c cs ih =>
    show eatHex (cs.length + 1) (c :: (cs ++ r)) = some r
    unfold eatHex
    rw [hg c (List.mem_cons_self c cs), if_pos rfl]
    exact ih (fun x hx => hg x (List.mem_cons_of_mem c hx))

theorem eatHex_of_len (n : Nat) (g r : List Char) (hg : ∀ c ∈ g, isHexCI c = true)
    (hlen : g.length = n) : eatHex n (g ++ r) = some r := by
  subst hlen
  exact eatHex_append g r hg

theorem eatDash_cons (cs : List Char) : eatDash ('-' :: cs) = some cs := rfl

theorem uuidDashedData_build (a b c d e : List Char)
    (la : a.length = 8) (lb : b.length = 4) (lc : c.length = 4) (ld : d.length = 4)
    (le : e.length = 12)
    (ha : ∀ x ∈ a, isHexCI x = true) (hb : ∀ x ∈ b, isHexCI x = true)
    (hc : ∀ x ∈ c, isHexCI x = true) (hd : ∀ x ∈ d, isHexCI x = true)
    (he : ∀ x ∈ e, isHexCI x = true) :
    uuidDashedData (a ++ ('-' :: (b ++ ('-' :: (c ++ ('-' :: (d ++ ('-' :: e)))))))) = true := by
  unfold uuidDashedData
  rw [eatHex_of_len 8 a _ ha la, Option.some_bind, eatDash_cons, Option.some_bind,
    eatHex_of_len 4 b _ hb lb, Option.some_bind, eatDash_cons, Option.some_bind,
    eatHex_of_len 4 c _ hc lc, Option.some_bind, eatDash_cons, Option.some_bind,
    eatHex_of_len 4 d _ hd ld, Option.some_bind, eatDash_cons, Option.some_bind,
    ← List.append_nil e, eatHex_of_len 12 e [] he le]
  rfl

theorem uuidDashedTest_toDashed (s : String) (hlen : s.data.length = 32)
    (hhex : ∀ c ∈ s.data, isLowerHex c = true) : uuidDashedTest (toDashedUuid s) = true := by
  unfold uuidDashedTest
  rw [toDashedUuid_data]
  have hx : ∀ (l : List Char), (∀ c ∈ l, c ∈ s.data) → ∀ c ∈ l, isHexCI c = true :=
    fun l hsub c hc => hexCI_of_lower c (hhex c (hsub c hc))
  refine uuidDashedData_build _ _ _ _ _ ?_ ?_ ?_ ?_ ?_ ?_ ?_ ?_ ?_ ?_
  · simp [List.length_take, hlen]
  · simp [List.length_take, List.length_drop, hlen]
  · simp [List.length_take, List.length_drop, hlen]
  · simp [List.length_take, List.length_drop, hlen]
  · simp [List.length_take, List.length_drop, hlen]
  · exact hx _ (fun c hc => List.take_subset _ _ hc)
  · exact hx _ (fun c hc => List.drop_subset _ _ (List.take_subset _ _ hc))
  · exact hx _ (fun c hc => List.drop_subset _ _ (List.take_subset _ _ hc))
  · exact hx _ (fun c hc => List.drop_subset _ _ (List.take_subset _ _ hc))
  · exact hx _ (fun c hc => List.drop_subset _ _ (List.take_subset _ _ hc))

/-- C1 (counterexample): on an uppercase 32-hex input, normalizing the bare
string and normalizing its dashed form disagree (the bare branch keeps the
letter case, the dashed branch lower-cases), refuting the claimed equality
for strings of either letter case. -/
theorem C1_case_counterexample :
    parseNotionReference "ABCDEF0123456789ABCDEF0123456789"
      ≠ parseNotionReference (toDashedUuid "ABCDEF0123456789ABCDEF0123456789") := by
  decide

/-- C1 (amended): for every 32-character lowercase hex string, normalizing
the bare string and normalizing its dashed form agree, both yielding the
dashed UUID; on inputs with uppercase letters the bare branch preserves
case while the dashed branch lower-cases, so the claimed equality holds
exactly on lowercase inputs. -/
theorem parse_of_bare (s : String) (ht : jsTrim s = s) (hb : uuidBareTest s = true) :
    parseNotionReference s = .ok ⟨toDashedUuid s⟩ := by
  simp [parseNotionReference, ht, hb]

theorem parse_of_dashed (s : String) (ht : jsTrim s = s) (hb : uuidBareTest s = false)
    (hd : uuidDashedTest s = true) :
    parseNotionReference s = .ok ⟨jsToLower s⟩ := by
  simp [parseNotionReference, ht, hb, hd]

theorem C1_lowercase_agree (s : String) (hlen : s.data.length = 32)
    (hhex : ∀ c ∈ s.data, isLowerHex c = true) :
    parseNotionReference s = .ok ⟨toDashedUuid s⟩
    ∧ parseNotionReference (toDashedUuid s) = .ok ⟨toDashedUuid s⟩ := by
  constructor
  · exact parse_of_bare s (jsTrim_eq_self s (fun c hc => ws_false_of_lower c (hhex c hc)))
      (uuidBareTest_true s hlen hhex)
  · rw [parse_of_dashed (toDashedUuid s)
      (jsTrim_eq_self _ (fun c hc =>
        ws_false_of_dash_or_lower c
          ((toDashedUuid_mem s c hc).imp_left (fun h => hhex c h))))
      (uuidBareTest_dashed_false s hlen)
      (uuidDashedTest_toDashed s hlen hhex)]
    unfold jsToLower
    rw [mapToLower_eq_self _ (fun c hc =>
      (toDashedUuid_mem s c hc).imp_left (fun h => hhex c h))]

/-! ## CSV exporter data model (src/notion/databases.ts, src/converters/csv.ts) -/

/-- A select/multi-select/status option (only its name is read). -/
structure SelectOption where
  name : String
deriving DecidableEq, Repr

/-- The discriminated payload of a formula property value. `boolean`
carries `Option Bool` because the API field is `boolean | null` and
`String(null)` renders `"null"`. -/
inductive FormulaValue where
  | string (s : Option String)
  | number (n : Option Float)
  | boolean (b : Option Bool)
  | date (d : Option DateValue)
  | other (tag : String)
deriving Repr

/-- One element of a rollup array: the source reads `plain_text` if
present, else `name` if present, else falls back to `JSON.stringify`; the
`otherJson` constructor carries that serialized fallback text. -/
inductive RollupItem where
  | withPlainText (s : String)
  | withName (s : String)
  | otherJson (json : String)
deriving DecidableEq, Repr

/-- The discriminated payload of a rollup property value. -/
inductive RollupValue where
  | number (n : Option Float)
  | date (d : Option DateValue)
  | array (items : List RollupItem)
  | other (tag : String)
deriving Repr

/-- A person in a people property. `nameField` is `none` when the object
has no `name` member at all, `some none` when the member is present but
`null` (ECMAScript `join` renders a `null` element as the empty string). -/
structure Person where
  nameField : Option (Option String)
  id : String
deriving DecidableEq, Repr

/-- A file in a files property. -/
inductive FileItem where
  | external (url : String)
  | file (url : String)
  | other
deriving DecidableEq, Repr

/-- A user reference for created_by / last_edited_by (`name ?? id` when the
`name` member exists, else `id`). -/
structure UserRef where
  nameField : Option (Option String)
  id : String
deriving DecidableEq, Repr

/-- One page property value, discriminated exactly as
`extractPropertyValue` dispatches on `prop.type`; `other` covers the
default arm. -/
inductive PropertyValue where
  | title (rich : List RichTextItem)
  | rich_text (rich : List RichTextItem)
  | number (n : Option Float)
  | select (o : Option SelectOption)
  | multi_select (os : List SelectOption)
  | status (o : Option SelectOption)
  | date (d : Option DateValue)
  | checkbox (b : Bool)
  | url (u : Option String)
  | email (e : Option String)
  | phone_number (p : Option String)
  | formula (f : FormulaValue)
  | relation (ids : List String)
  | rollup (r : RollupValue)
  | people (ps : List Person)
  | files (fs : List FileItem)
  | created_time (t : String)
  | created_by (u : UserRef)
  | last_edited_time (t : String)
  | last_edited_by (u : UserRef)
  | unique_id (idPrefix : Option String) (num : Int)
  | other (tag : String)
deriving Repr

/-- ECMAScript `String(number)` at the boundary (exact decimal formatting
of IEEE doubles is a runtime detail not modelled further; no claim touches
it). -/
def jsNumToString (x : Float) : String :=
  toString x

/-- A Notion date rendered for CSV (`start` or `start → end`, with the true
arrow U+2192 used by databases.ts). -/
def csvDate (d : Option DateValue) : String :=
  match d with
  | none => ""
  | some dv =>
    match dv.endv with
    | some e => dv.start ++ " → " ++ e
    | none => dv.start

/-- `extractPropertyValue` from databases.ts: type-directed flattening of a
property value to a CSV field string. -/
def extractPropertyValue (prop : PropertyValue) : String :=
  match prop with
  | .title rich => jsJoin "" (rich.map (fun t => t.plainText))
  | .rich_text rich => jsJoin "" (rich.map (fun t => t.plainText))
  | .number n => match n with | some x => jsNumToString x | none => ""
  | .select o => match o with | some s => s.name | none => ""
  | .multi_select os => jsJoin "; " (os.map (fun s => s.name))
  | .status o => match o with | some s => s.name | none => ""
  | .date d => csvDate d
  | .checkbox b => if b then "true" else "false"
  | .url u => match u with | some s => s | none => ""
  | .email e => match e with | some s => s | none => ""
  | .phone_number p => match p with | some s => s | none => ""
  | .formula f =>
    match f with
    | .string s => match s with | some v => v | none => ""
    | .number n => match n with | some x => jsNumToString x | none => ""
    | .boolean b => match b with | some true => "true" | some false => "false" | none => "null"
    | .date d => csvDate d
    | .other _ => ""
  | .relation ids => jsJoin "; " ids
  | .rollup r =>
    match r with
    | .number n => match n with | some x => jsNumToString x | none => ""
    | .date d => csvDate d
    | .array items =>
      jsJoin "; " (items.map (fun it =>
        match it with
        | .withPlainText s => s
        | .withName s => s
        | .otherJson j => j))
    | .other _ => ""
  | .people ps =>
    jsJoin "; " (ps.map (fun p =>
      match p.nameField with
      | some (some n) => n
      | some none => ""
      | none => p.id))
  | .files fs =>
    jsJoin "; " (fs.map (fun f =>
      match f with
      | .external u => u
      | .file u => u
      | .other => ""))
  | .created_time t => t
  | .created_by u =>
    (match u.nameField with
     | some (some n) => n
     | some none => u.id
     | none => u.id)
  | .last_edited_time t => t
  | .last_edited_by u =>
    (match u.nameField with
     | some (some n) => n
     | some none => u.id
     | none => u.id)
  | .unique_id idPrefix num =>
    (match idPrefix with
     | some p => if p = "" then toString num else p ++ "-" ++ toString num
     | none => toString num)
  | .other _ => ""

/-- The per-property schema metadata (`PropertySchema` map values). -/
structure PropMeta where
  id : String
  type_ : String
  name : String
deriving DecidableEq, Repr

/-- The `PropertySchema` map, in its iteration (insertion) order. -/
abbrev PropertySchema := List (String × PropMeta)

/-- A page object as the CSV exporter and the traversal consume it:
identifier, property map in iteration order, and timestamps. -/
structure PageObject where
  id : String
  properties : List (String × PropertyValue)
  created_time : String
  last_edited_time : String

/-- The scan of `getPageTitle` over `Object.values(page.properties)`: the
first title-typed property with a non-empty rich text list wins. -/
def getPageTitleLoop : List (String × PropertyValue) → String
  | [] => "Untitled"
  | (_, prop) :: rest =>
    match prop with
    | .title rich =>
      if rich.length > 0 then jsJoin "" (rich.map (fun t => t.plainText))
      else getPageTitleLoop rest
    | _ => getPageTitleLoop rest

/-- `getPageTitle` from pages.ts. -/
def getPageTitle (page : PageObject) : String :=
  getPageTitleLoop page.properties

/-- `escapeField` from csv.ts: RFC 4180 quoting. -/
def escapeField (value : String) : String :=
  if value.data.contains ',' || value.data.contains '\n' ||
     value.data.contains '\r' || value.data.contains '"' then
    "\"" ++ String.mk (value.data.foldr
      (fun c acc => if c == '"' then '"' :: '"' :: acc else c :: acc) []) ++ "\""
  else value

/-- The accumulation loop of `sortColumns`: a title-typed property
overwrites `titleCol`, every other property name is appended to `others`
in iteration order. -/
def sortColumnsLoop : PropertySchema → Option String → List String → (Option String × List String)
  | [], titleCol, others => (titleCol, others)
  | (name, meta) :: rest, titleCol, others =>
    if meta.type_ == "title" then sortColumnsLoop rest (some name) others
    else sortColumnsLoop rest titleCol (others ++ [name])

/-- `sortColumns` from csv.ts. The locale-aware comparator
(`a.localeCompare(b)`, an ICU builtin) is taken as the parameter `le`
(`le a b` meaning `a.localeCompare(b) ≤ 0`), and the in-place stable
`Array.prototype.sort` is modelled by the stable `List.mergeSort`. The
final `titleCol ? [titleCol, ...others] : others` tests ECMAScript
truthiness, so an empty-string title name falls to the `others`-only
branch. -/
def sortColumns (le : String → String → Bool) (schema : PropertySchema) : List String :=
  let st := sortColumnsLoop schema none []
  let sorted := List.mergeSort st.2 le
  match st.1 with
  | some t => if t = "" then sorted else t :: sorted
  | none => sorted

/-- `entry.properties[colName]` object member access. -/
def lookupProp : List (String × PropertyValue) → String → Option PropertyValue
  | [], _ => none
  | (n, v) :: rest, key => if n == key then some v else lookupProp rest key

/-- `entriesToCsv` from csv.ts: header row of sorted escaped column names,
one row per entry with missing properties as empty fields, a trailing
newline. -/
def entriesToCsv (le : String → String → Bool) (entries : List PageObject)
    (schema : PropertySchema) : String :=
  let columns := sortColumns le schema
  let header := jsJoin "," (columns.map (fun c => escapeField c))
  let rows := entries.map (fun entry =>
    jsJoin "," (columns.map (fun colName =>
      match lookupProp entry.properties colName with
      | none => ""
      | some prop => escapeField (extractPropertyValue prop))))
  jsJoin "\n" (header :: rows) ++ "\n"

/-- C1 witness: the amended theorem applied at a concrete lowercase
32-hex string. -/
theorem C1_lowercase_agree_witness :
    parseNotionReference "0123456789abcdef0123456789abcdef"
        = .ok ⟨toDashedUuid "0123456789abcdef0123456789abcdef"⟩
    ∧ parseNotionReference (toDashedUuid "0123456789abcdef0123456789abcdef")
        = .ok ⟨toDashedUuid "0123456789abcdef0123456789abcdef"⟩ :=
  C1_lowercase_agree "0123456789abcdef0123456789abcdef" (by decide) (by decide)

/-! ## Claim C6: CSV column order -/

/-- The title tracking of `sortColumnsLoop` in isolation: the last
title-typed property name seen, if any. -/
def titleFold : PropertySchema → Option String → Option String
  | [], tc => tc
  | (name, meta) :: rest, tc =>
    titleFold rest (if meta.type_ == "title" then some name else tc)

theorem sortColumnsLoop_spec (l : PropertySchema) (tc : Option String) (acc : List String) :
    sortColumnsLoop l tc acc
      = (titleFold l tc, acc ++ (l.filter (fun p => !(p.2.type_ == "title"))).map Prod.fst) := by
  induction l generalizing tc acc with
  | nil => simp [sortColumnsLoop, titleFold]
  | cons p rest ih =>
    obtain ⟨name, meta⟩ := p
    by_cases h : (meta.type_ == "title") = true
    · simp [sortColumnsLoop, titleFold, h, ih, List.filter_cons]
    · rw [Bool.not_eq_true] at h
      simp [sortColumnsLoop, titleFold, h, ih, List.filter_cons]

theorem titleFold_of_no_title (l : PropertySchema) (tc : Option String)
    (h : ∀ p ∈ l, p.2.type_ ≠ "title") : titleFold l tc = tc := by
  induction l generalizing tc with
  | nil => rfl
  | cons p rest ih =>
    obtain ⟨name, meta⟩ := p
    have hm : (meta.type_ == "title") = false := by
      rw [beq_eq_false_iff_ne]
      exact h (name, meta) (List.mem_cons_self _ _)
    simp only [titleFold, hm]
    exact ih tc (fun q hq => h q (List.mem_cons_of_mem _ hq))

theorem titleFold_of_unique_title (l : PropertySchema) (tc : Option String)
    (t : String) (meta : PropMeta) (hmem : (t, meta) ∈ l) (hm : meta.type_ = "title")
    (hcount : (l.filter (fun p => p.2.type_ == "title")).length ≤ 1) :
    titleFold l tc = some t := by
  induction l generalizing tc with
  | nil => exact absurd hmem (List.not_mem_nil _)
  | cons p rest ih =>
    obtain ⟨name, meta'⟩ := p
    rcases List.mem_cons.mp hmem with hhead | htail
    · cases hhead
      have hp : (meta.type_ == "title") = true := beq_iff_eq.mpr hm
      rw [List.filter_cons, if_pos hp, List.length_cons] at hcount
      have hlen0 : (List.filter (fun p => p.2.type_ == "title") rest).length = 0 := by
        omega
      have hempty : List.filter (fun p => p.2.type_ == "title") rest = [] :=
        List.length_eq_zero.mp hlen0
      have hrest : ∀ q ∈ rest, q.2.type_ ≠ "title" := by
        intro q hq hqt
        have hqf : q ∈ List.filter (fun p => p.2.type_ == "title") rest :=
          List.mem_filter.mpr ⟨hq, beq_iff_eq.mpr hqt⟩
        rw [hempty] at hqf
        exact absurd hqf (List.not_mem_nil q)
      simp only [titleFold, hp, if_true]
      exact titleFold_of_no_title rest (some t) hrest
    · by_cases hp : (meta'.type_ == "title") = true
      · exfalso
        rw [List.filter_cons, if_pos hp, List.length_cons] at hcount
        have hlen0 : (List.filter (fun p => p.2.type_ == "title") rest).length = 0 := by
          omega
        have hempty : List.filter (fun p => p.2.type_ == "title") rest = [] :=
          List.length_eq_zero.mp hlen0
        have hmf : (t, meta) ∈ List.filter (fun p => p.2.type_ == "title") rest :=
          List.mem_filter.mpr ⟨htail, beq_iff_eq.mpr hm⟩
        rw [hempty] at hmf
        exact absurd hmf (List.not_mem_nil _)
      · rw [Bool.not_eq_true] at hp
        simp only [titleFold, hp, if_false]
        refine ih tc htail ?_
        rw [List.filter_cons, if_neg (by rw [hp]; exact Bool.false_ne_true)] at hcount
        exact hcount

theorem jsJoin_cons_ne (sep x : String) (l : List String) (hl : l ≠ []) :
    jsJoin sep (x :: l) = x ++ sep ++ jsJoin sep l := by
  cases l with
  | nil => exact absurd rfl hl
  | cons y ys => rfl

theorem entriesToCsv_split (le : String → String → Bool) (entries : List PageObject)
    (schema : PropertySchema) :
    ∃ rest : String,
      entriesToCsv le entries schema
        = jsJoin "," ((sortColumns le schema).map (fun c => escapeField c)) ++ "\n" ++ rest := by
  unfold entriesToCsv
  cases entries with
  | nil =>
    refine ⟨"", ?_⟩
    rw [String.append_empty]
    rfl
  | cons e es =>
    refine ⟨jsJoin "\n" ((e :: es).map (fun entry =>
      jsJoin "," ((sortColumns le schema).map (fun colName =>
        match lookupProp entry.properties colName with
        | none => ""
        | some prop => escapeField (extractPropertyValue prop))))) ++ "\n", ?_⟩
    show (jsJoin "," ((sortColumns le schema).map (fun c => escapeField c)) ++ "\n" ++
        jsJoin "\n" ((e :: es).map (fun entry =>
          jsJoin "," ((sortColumns le schema).map (fun colName =>
            match lookupProp entry.properties colName with
            | none => ""
            | some prop => escapeField (extractPropertyValue prop)))))) ++ "\n" = _
    rw [String.append_assoc, String.append_assoc]

/-- C6 (counterexample): a schema whose sole title-typed property is named
by the empty string: ECMAScript truthiness (`titleCol ? …`) drops the title
column entirely, so the header is `b`, not the `,b` the claim's column
order dictates. -/
theorem C6_empty_title_counterexample :
    entriesToCsv (fun a b => decide (a ≤ b)) []
        [("", ⟨"t", "title", ""⟩), ("b", ⟨"x", "text", "b"⟩)]
      = "b" ++ "\n"
    ∧ ("b" ++ "\n" : String)
        ≠ escapeField "" ++ "," ++ escapeField "b" ++ "\n" := by
  constructor
  · simp [entriesToCsv, sortColumns, sortColumnsLoop, jsJoin, escapeField,
      List.mergeSort]
  · decide

/-- C6 (amended): provided every title-typed property has a non-empty
name, the CSV begins with the header row listing the (unique) title-typed
property name first, followed by the remaining property names in the order
produced by the stable comparator sort (`List.mergeSort` over the non-title
names in iteration order); with no title-typed property the header is just
the sorted names. A title property named by the empty string is dropped by
the code's truthiness test, which is the sole divergence from the claim. -/
theorem C6_csv_header (le : String → String → Bool) (schema : PropertySchema)
    (entries : List PageObject)
    (hcount : (schema.filter (fun p => p.2.type_ == "title")).length ≤ 1)
    (hne : ∀ p ∈ schema, p.2.type_ = "title" → p.1 ≠ "") :
    (∃ rest : String,
      entriesToCsv le entries schema
        = jsJoin "," ((sortColumns le schema).map (fun c => escapeField c)) ++ "\n" ++ rest)
    ∧ ((∀ p ∈ schema, p.2.type_ ≠ "title") →
        sortColumns le schema
          = List.mergeSort ((schema.filter (fun p => !(p.2.type_ == "title"))).map Prod.fst) le)
    ∧ (∀ t meta, (t, meta) ∈ schema → meta.type_ = "title" →
        sortColumns le schema
          = t :: List.mergeSort
              ((schema.filter (fun p => !(p.2.type_ == "title"))).map Prod.fst) le) := by
  refine ⟨entriesToCsv_split le entries schema, fun hno => ?_, fun t meta hmem hm => ?_⟩
  · unfold sortColumns
    rw [sortColumnsLoop_spec, titleFold_of_no_title schema none hno]
    simp
  · unfold sortColumns
    rw [sortColumnsLoop_spec, titleFold_of_unique_title schema none t meta hmem hm hcount]
    simp only [List.nil_append]
    rw [if_neg (hne (t, meta) hmem hm)]

/-- C6 witness: the amended theorem at the claim's example schema
`{Name: title, Zebra: text, Apple: text}` in an adversarial iteration
order, with the ASCII comparator. -/
theorem C6_csv_header_witness :
    (∃ rest : String,
      entriesToCsv (fun a b => decide (a ≤ b)) []
          [("Zebra", ⟨"z", "text", "Zebra"⟩), ("Apple", ⟨"a", "text", "Apple"⟩),
            ("Name", ⟨"n", "title", "Name"⟩)]
        = jsJoin "," ((sortColumns (fun a b => decide (a ≤ b))
            [("Zebra", ⟨"z", "text", "Zebra"⟩), ("Apple", ⟨"a", "text", "Apple"⟩),
              ("Name", ⟨"n", "title", "Name"⟩)]).map (fun c => escapeField c)) ++ "\n" ++ rest)
    ∧ ((∀ p ∈ ([("Zebra", ⟨"z", "text", "Zebra"⟩), ("Apple", ⟨"a", "text", "Apple"⟩),
          ("Name", ⟨"n", "title", "Name"⟩)] : PropertySchema), p.2.type_ ≠ "title") →
        sortColumns (fun a b => decide (a ≤ b))
            [("Zebra", ⟨"z", "text", "Zebra"⟩), ("Apple", ⟨"a", "text", "Apple"⟩),
              ("Name", ⟨"n", "title", "Name"⟩)]
          = List.mergeSort ((([("Zebra", ⟨"z", "text", "Zebra"⟩),
              ("Apple", ⟨"a", "text", "Apple"⟩), ("Name", ⟨"n", "title", "Name"⟩)] :
                PropertySchema).filter
              (fun p => !(p.2.type_ == "title"))).map Prod.fst) (fun a b => decide (a ≤ b)))
    ∧ (∀ t meta, (t, meta) ∈ ([("Zebra", ⟨"z", "text", "Zebra"⟩),
          ("Apple", ⟨"a", "text", "Apple"⟩), ("Name", ⟨"n", "title", "Name"⟩)] :
            PropertySchema) → meta.type_ = "title" →
        sortColumns (fun a b => decide (a ≤ b))
            [("Zebra", ⟨"z", "text", "Zebra"⟩), ("Apple", ⟨"a", "text", "Apple"⟩),
              ("Name", ⟨"n", "title", "Name"⟩)]
          = t :: List.mergeSort ((([("Zebra", ⟨"z", "text", "Zebra"⟩),
              ("Apple", ⟨"a", "text", "Apple"⟩), ("Name", ⟨"n", "title", "Name"⟩)] :
                PropertySchema).filter
              (fun p => !(p.2.type_ == "title"))).map Prod.fst) (fun a b => decide (a ≤ b))) :=
  C6_csv_header (fun a b => decide (a ≤ b))
    [("Zebra", ⟨"z", "text", "Zebra"⟩), ("Apple", ⟨"a", "text", "Apple"⟩),
      ("Name", ⟨"n", "title", "Name"⟩)] [] (by decide) (by decide)

/-! ## Document assembler (src/converters/markdown.ts) -/

/-- `indentLines` from markdown.ts: indent every non-empty line
(`if (!indent) return text` short-circuit included). -/
def indentLines (text : String) (indent : String) : String :=
  if indent = "" then text
  else jsJoin "\n" ((jsSplitNl text).map (fun line => if line = "" then line else indent ++ line))

/-- `escapeYaml` from markdown.ts: double backslashes first, then escape
double quotes. -/
def escapeYaml (s : String) : String :=
  let p1 := String.mk (s.data.foldr
    (fun c acc => if c == '\\' then '\\' :: '\\' :: acc else c :: acc) [])
  String.mk (p1.data.foldr
    (fun c acc => if c == '"' then '\\' :: '"' :: acc else c :: acc) [])

/-- `buildFrontmatter` from markdown.ts. -/
def buildFrontmatter (page : PageObject) : String :=
  jsJoin "\n" ["---",
    "title: \"" ++ escapeYaml (getPageTitle page) ++ "\"",
    "created: " ++ page.created_time,
    "last_edited: " ++ page.last_edited_time,
    "---",
    ""]

/-- The character-level engine of `replace(/\n{3,}/g, "\n\n")`: `k` counts
the newline run in progress; a finished run of three or more newlines is
flushed as exactly two. -/
def flushNl (k : Nat) : List Char :=
  List.replicate (if 3 ≤ k then 2 else k) '\n'

/-- Worker for `collapseNewlines`. -/
def collapseNlAux : Nat → List Char → List Char
  | k, [] => flushNl k
  | k, c :: rest =>
    if c == '\n' then collapseNlAux (k + 1) rest
    else flushNl k ++ c :: collapseNlAux 0 rest

/-- `replace(/\n{3,}/g, "\n\n")` from `blocksToMarkdown`: every maximal run
of three or more newlines becomes exactly two. -/
def collapseNewlines (s : String) : String :=
  String.mk (collapseNlAux 0 s.data)

mutual

/-- `renderBlocks` from markdown.ts: the recursive-descent walk producing
the body lines, joined with newlines. -/
def renderBlocks (blocks : List Block) (depth : Nat) : String :=
  jsJoin "\n" (renderLines blocks none [] depth)
termination_by (sizeOf blocks, 1)

/-- The `for` loop of `renderBlocks`: `prev` is the previous sibling,
`lines` the accumulated output lines (appended at the end, as `push`
does). -/
def renderLines : List Block → Option Block → List String → Nat → List String
  | [], _, lines, _ => lines
  | Block.mk bid kind children :: rest, prev, lines, depth =>
    let indent := jsRepeat "    " depth
    if blockTypeName kind == "table" then
      renderLines rest (some (Block.mk bid kind children))
        (lines ++ [indentLines (renderBlock (Block.mk bid kind children)) indent, ""]) depth
    else
      let rendered := renderBlock (Block.mk bid kind children)
      let hasContent := !(rendered.length == 0)
      let isList := isListItem (blockTypeName kind)
      let prevIsList := match prev with
        | some p => isListItem (blockTypeName p.kind)
        | none => false
      let needsBlankBefore := hasContent && !(isList && prevIsList)
      let lines1 :=
        if needsBlankBefore && !lines.isEmpty && !(lines.getLast? == some "") then
          lines ++ [""]
        else lines
      let lines2 := if hasContent then lines1 ++ [indentLines rendered indent] else lines1
      let lines3 :=
        if 0 < children.length then
          let childDepth :=
            if isList || blockTypeName kind == "toggle" || blockTypeName kind == "callout"
            then depth + 1 else depth
          let childMd := renderBlocks children childDepth
          if !(jsTrim childMd == "") then lines2 ++ [childMd] else lines2
        else lines2
      renderLines rest (some (Block.mk bid kind children)) lines3 depth
termination_by blocks _ _ _ => (sizeOf blocks, 0)
decreasing_by all_goals (simp_wf; omega)

end

/-- `blocksToMarkdown` from markdown.ts: optional frontmatter plus body,
newline-collapsed, end-trimmed, and given exactly one trailing newline. -/
def blocksToMarkdown (blocks : List Block) (page : Option PageObject) : String :=
  let parts := match page with
    | some p => [buildFrontmatter p, renderBlocks blocks 0]
    | none => [renderBlocks blocks 0]
  jsTrimEnd (collapseNewlines (jsJoin "\n" parts)) ++ "\n"

/-! ## Claim C5: blank-line policy and final newline discipline -/

/-- Three consecutive newlines occur somewhere in the character list. -/
def hasTripleNl : List Char → Bool
  | [] => false
  | [_] => false
  | [_, _] => false
  | a :: b :: c :: rest =>
    (a == '\n' && b == '\n' && c == '\n') || hasTripleNl (b :: c :: rest)

/-- The string ends with exactly one newline: its last character is a
newline and the character before it (if any) is not. -/
def endsSingleNl (s : String) : Prop :=
  s.data.getLast? = some '\n' ∧ s.data.dropLast.getLast? ≠ some '\n'

/-- Modelled from the spec's blank-line rule (claim C5): consecutive
sibling renders joined by a single newline when both blocks are list-item
kinds and by a blank line (two newlines) otherwise. To be compared with
`renderBlocks`. -/
def claimJoin : List Block → String
  | [] => ""
  | [b] => renderBlock b
  | b :: b2 :: rest =>
    renderBlock b
      ++ (if isListItem (blockTypeName b2.kind) && isListItem (blockTypeName b.kind)
          then "\n" else "\n\n")
      ++ claimJoin (b2 :: rest)

/-- The tail form of `claimJoin`: each block preceded by its separator,
given whether the previous sibling is a list item. -/
def claimTail (prevL : Bool) : List Block → String
  | [] => ""
  | b :: rest =>
    (if isListItem (blockTypeName b.kind) && prevL then "\n" else "\n\n")
      ++ renderBlock b ++ claimTail (isListItem (blockTypeName b.kind)) rest

theorem hasTripleNl_cons_ne (c : Char) (l : List Char) (hc : (c == '\n') = false) :
    hasTripleNl (c :: l) = hasTripleNl l := by
  match l with
  | [] => rfl
  | [_] => rfl
  | a :: b :: rest =>
    show ((c == '\n' && _ && _) || _) = _
    rw [hc]
    rfl

theorem hasTripleNl_nl_cons_ne (c : Char) (l : List Char) (hc : (c == '\n') = false) :
    hasTripleNl ('\n' :: c :: l) = hasTripleNl l := by
  match l with
  | [] => rfl
  | a :: rest =>
    show (('\n' == '\n' && c == '\n' && _) || _) = _
    rw [hc]
    show (false || hasTripleNl (c :: a :: rest)) = _
    rw [Bool.false_or, hasTripleNl_cons_ne c _ hc]

theorem hasTripleNl_nl_nl_cons_ne (c : Char) (l : List Char) (hc : (c == '\n') = false) :
    hasTripleNl ('\n' :: '\n' :: c :: l) = hasTripleNl l := by
  show (('\n' == '\n' && '\n' == '\n' && c == '\n') || _) = _
  rw [hc]
  show (false || hasTripleNl ('\n' :: c :: l)) = _
  rw [Bool.false_or, hasTripleNl_nl_cons_ne c _ hc]

theorem hasTripleNl_flush_cons (k : Nat) (c : Char) (l : List Char)
    (hc : (c == '\n') = false) :
    hasTripleNl (flushNl k ++ c :: l) = hasTripleNl l := by
  unfold flushNl
  by_cases h3 : 3 ≤ k
  · rw [if_pos h3]
    exact hasTripleNl_nl_nl_cons_ne c l hc
  · rw [if_neg h3]
    match k, h3 with
    | 0, _ => exact hasTripleNl_cons_ne c l hc
    | 1, _ => exact hasTripleNl_nl_cons_ne c l hc
    | 2, _ => exact hasTripleNl_nl_nl_cons_ne c l hc
    | n + 3, h3 => exact absurd (Nat.le_add_left 3 n) h3

theorem hasTripleNl_flush (k : Nat) : hasTripleNl (flushNl k) = false := by
  unfold flushNl
  by_cases h3 : 3 ≤ k
  · rw [if_pos h3]; rfl
  · rw [if_neg h3]
    match k, h3 with
    | 0, _ => rfl
    | 1, _ => rfl
    | 2, _ => rfl
    | n + 3, h3 => exact absurd (Nat.le_add_left 3 n) h3

theorem hasTripleNl_collapseAux (cs : List Char) : ∀ k, hasTripleNl (collapseNlAux k cs) = false := by
  induction cs with
  | nil => intro k; exact hasTripleNl_flush k
  | cons c rest ih =>
    intro k
    unfold collapseNlAux
    by_cases hc : (c == '\n') = true
    · rw [if_pos hc]; exact ih (k + 1)
    · rw [Bool.not_eq_true] at hc
      rw [if_neg (by rw [hc]; exact Bool.false_ne_true)]
      rw [hasTripleNl_flush_cons k c _ hc]
      exact ih 0

theorem hasTripleNl_collapse (s : String) : hasTripleNl (collapseNewlines s).data = false :=
  hasTripleNl_collapseAux s.data 0

/-- Appending one newline to a list whose last character is not a newline
cannot create a triple. -/
theorem hasTripleNl_concat_nl :
    ∀ t : List Char, hasTripleNl t = false → t.getLast? ≠ some '\n' →
      hasTripleNl (t ++ ['\n']) = false
  | [], _, _ => rfl
  | [_], _, _ => rfl
  | a :: b :: rest, h, hl => by
    cases rest with
    | nil =>
      have hb : b ≠ '\n' := by
        intro he
        exact hl (by rw [he]; rfl)
      show ((a == '\n' && b == '\n' && '\n' == '\n') || hasTripleNl [b, '\n']) = false
      have hb2 : (b == '\n') = false := beq_eq_false_iff_ne.mpr hb
      rw [hb2]
      simp only [Bool.and_false, Bool.false_and, Bool.false_or]
      rfl
    | cons c rest' =>
      have h12 := Bool.or_eq_false_iff.mp h
      show ((a == '\n' && b == '\n' && c == '\n')
        || hasTripleNl (b :: c :: (rest' ++ ['\n']))) = false
      rw [h12.1, Bool.false_or]
      exact hasTripleNl_concat_nl (b :: c :: rest') h12.2
        (by rw [← List.getLast?_cons_cons (a := a)]; exact hl)

/-- The first character surviving `dropWhile p` fails `p`. -/
theorem dropWhile_head_not (p : Char → Bool) :
    ∀ l c t, List.dropWhile p l = c :: t → p c = false
  | [], c, t, h => by cases h
  | a :: l, c, t, h => by
    rw [List.dropWhile_cons] at h
    by_cases hp : p a = true
    · rw [if_pos hp] at h
      exact dropWhile_head_not p l c t h
    · rw [Bool.not_eq_true] at hp
      rw [if_neg (by rw [hp]; exact Bool.false_ne_true)] at h
      cases h
      exact hp

/-- `jsTrimEnd` leaves no trailing newline (its last character, if any, is
not whitespace). -/
theorem jsTrimEnd_getLast_not_ws (s : String) (c : Char)
    (h : (jsTrimEnd s).data.getLast? = some c) : isJsWs c = false := by
  unfold jsTrimEnd at h
  rw [show (String.mk ((s.data.reverse.dropWhile isJsWs).reverse)).data
      = (s.data.reverse.dropWhile isJsWs).reverse from rfl,
    ← List.head?_reverse, List.reverse_reverse] at h
  match hd : s.data.reverse.dropWhile isJsWs, h with
  | c' :: t, h =>
    have := dropWhile_head_not isJsWs s.data.reverse c' t hd
    rw [show (c' :: t).head? = some c' from rfl] at h
    cases h
    exact this

/-- The last-character analysis of `X ++ "\n"`. -/
theorem endsSingleNl_of_trim (s : String) :
    endsSingleNl (String.mk ((jsTrimEnd s).data ++ ['\n'])) := by
  constructor
  · show ((jsTrimEnd s).data ++ ['\n']).getLast? = some '\n'
    exact List.getLast?_concat _
  · show ((jsTrimEnd s).data ++ ['\n']).dropLast.getLast? ≠ some '\n'
    rw [List.dropLast_concat]
    intro hc
    have := jsTrimEnd_getLast_not_ws s '\n' hc
    exact absurd this (by decide)

theorem indentLines_no_indent (t : String) : indentLines t "" = t := by
  unfold indentLines
  rw [if_pos rfl]

theorem jsJoin_append_singleton (sep x : String) :
    ∀ l : List String, l ≠ [] → jsJoin sep (l ++ [x]) = jsJoin sep l ++ sep ++ x
  | [], h => absurd rfl h
  | [a], _ => rfl
  | a :: b :: t, _ => by
    show a ++ sep ++ jsJoin sep ((b :: t) ++ [x]) = a ++ sep ++ jsJoin sep (b :: t) ++ sep ++ x
    rw [jsJoin_append_singleton sep x (b :: t) (by simp)]
    simp [String.append_assoc]

theorem renderBlock_ne_length (i : String) (kind : BlockKind) (children : List Block)
    (h : renderBlock (Block.mk i kind children) ≠ "") :
    ((renderBlock (Block.mk i kind children)).length == 0) = false := by
  rw [beq_eq_false_iff_ne]
  intro h0
  apply h
  have hdata : (renderBlock (Block.mk i kind children)).data = ("" : String).data :=
    List.length_eq_zero.mp h0
  exact congrArg String.mk hdata

/-- The loop of `renderBlocks` on good (childless, non-table,
non-empty-render) blocks, with a previous sibling and non-degenerate
accumulated lines: each block contributes its render, preceded by a blank
line exactly when the list-item pairing rule says so. -/
theorem renderLines_spec (bs : List Block)
    (good : ∀ b ∈ bs, b.children = [] ∧ blockTypeName b.kind ≠ "table"
      ∧ renderBlock b ≠ "") :
    ∀ (pid : String) (pk : BlockKind) (acc : List String), acc ≠ [] → acc.getLast? ≠ some "" →
      jsJoin "\n" (renderLines bs (some (Block.mk pid pk [])) acc 0)
        = jsJoin "\n" acc ++ claimTail (isListItem (blockTypeName pk)) bs := by
  induction bs with
  | nil =>
    intro pid pk acc h1 h2
    simp only [renderLines, claimTail, String.append_empty]
  | cons b rest ih =>
    intro pid pk acc hne hlast
    obtain ⟨bid, kind, children⟩ := b
    obtain ⟨hch, htab, hre⟩ := good _ (List.mem_cons_self _ _)
    have hch' : children = [] := hch
    subst hch'
    have htabf : (blockTypeName kind == "table") = false := beq_eq_false_iff_ne.mpr htab
    have hlen : ((renderBlock (Block.mk bid kind [])).length == 0) = false :=
      renderBlock_ne_length bid kind [] hre
    have hemp : acc.isEmpty = false := by
      rw [← Bool.not_eq_true, List.isEmpty_iff]
      exact hne
    have hlastf : (acc.getLast? == some "") = false := beq_eq_false_iff_ne.mpr hlast
    simp only [renderLines, htabf, hlen, hemp, hlastf, jsRepeat, indentLines_no_indent,
      Block.kind, Bool.not_false, Bool.true_and, Bool.and_true, Bool.false_eq_true,
      if_false, if_true, List.length_nil, Nat.lt_irrefl, String.append_empty]
    by_cases hBL : (isListItem (blockTypeName kind) && isListItem (blockTypeName pk)) = true
    · rw [hBL]
      simp only [Bool.not_true, Bool.false_and, Bool.false_eq_true, if_false, if_true]
      rw [ih (fun q hq => good q (List.mem_cons_of_mem _ hq)) bid kind
        (acc ++ [renderBlock (Block.mk bid kind [])]) (by simp) (by
          rw [List.getLast?_concat]
          intro hc
          exact hre (Option.some.injEq .. ▸ hc))]
      rw [jsJoin_append_singleton _ _ acc hne]
      simp only [claimTail, Block.kind, hBL, eq_self_iff_true, if_true]
      simp only [String.append_assoc]
    · rw [Bool.not_eq_true] at hBL
      rw [hBL]
      simp only [Bool.not_false, Bool.true_and, if_true]
      rw [ih (fun q hq => good q (List.mem_cons_of_mem _ hq)) bid kind
        ((acc ++ [""]) ++ [renderBlock (Block.mk bid kind [])]) (by simp) (by
          rw [List.getLast?_concat]
          intro hc
          exact hre (Option.some.injEq .. ▸ hc))]
      rw [jsJoin_append_singleton _ _ (acc ++ [""]) (by simp),
        jsJoin_append_singleton _ _ acc hne]
      simp only [claimTail, Block.kind, hBL, Bool.false_eq_true, if_false]
      simp only [String.append_assoc, String.append_empty, String.empty_append]
      rfl

theorem claimJoin_eq_tail (b : Block) (rest : List Block) :
    claimJoin (b :: rest)
      = renderBlock b ++ claimTail (isListItem (blockTypeName b.kind)) rest := by
  induction rest generalizing b with
  | nil => simp only [claimJoin, claimTail, String.append_empty]
  | cons b2 rest ih =>
    simp only [claimJoin, claimTail, ih b2, String.append_assoc]

/-- `renderBlocks` on a sequence of good blocks equals the claim's join:
consecutive renders separated by one newline when both blocks are
list-item kinds, by a blank line otherwise. -/
theorem renderBlocks_good (bs : List Block)
    (good : ∀ b ∈ bs, b.children = [] ∧ blockTypeName b.kind ≠ "table"
      ∧ renderBlock b ≠ "") :
    renderBlocks bs 0 = claimJoin bs := by
  cases bs with
  | nil => simp only [renderBlocks, renderLines, jsJoin, claimJoin]
  | cons b rest =>
    obtain ⟨bid, kind, children⟩ := b
    obtain ⟨hch, htab, hre⟩ := good _ (List.mem_cons_self _ _)
    have hch' : children = [] := hch
    subst hch'
    have htabf : (blockTypeName kind == "table") = false := beq_eq_false_iff_ne.mpr htab
    have hlen : ((renderBlock (Block.mk bid kind [])).length == 0) = false :=
      renderBlock_ne_length bid kind [] hre
    unfold renderBlocks
    simp only [renderLines, htabf, hlen, jsRepeat, indentLines_no_indent, Block.kind,
      Bool.not_false, Bool.true_and, Bool.and_true, Bool.and_false, Bool.not_true,
      Bool.false_eq_true, if_false, if_true, List.isEmpty_nil, Bool.not_eq_true,
      List.length_nil, Nat.lt_irrefl, List.nil_append, Bool.false_and, Bool.and_self]
    rw [renderLines_spec rest (fun q hq => good q (List.mem_cons_of_mem _ hq)) bid kind
      [renderBlock (Block.mk bid kind [])] (by simp) (by
        rw [show ([renderBlock (Block.mk bid kind [])] : List String).getLast?
            = some (renderBlock (Block.mk bid kind [])) from rfl]
        intro hc
        exact hre (Option.some.injEq .. ▸ hc))]
    rw [claimJoin_eq_tail]
    simp only [Block.kind, jsJoin]

/-- A window-free prefix: dropping a suffix cannot create a newline
triple. -/
theorem hasTripleNl_append_false :
    ∀ (p q : List Char), hasTripleNl (p ++ q) = false → hasTripleNl p = false
  | [], _, _ => rfl
  | [_], _, _ => rfl
  | [_, _], _, _ => rfl
  | a :: b :: c :: p', q, h => by
    have h12 := Bool.or_eq_false_iff.mp h
    show ((a == '\n' && b == '\n' && c == '\n') || hasTripleNl (b :: c :: p')) = false
    rw [h12.1, Bool.false_or]
    exact hasTripleNl_append_false (b :: c :: p') q h12.2

theorem hasTripleNl_trimEnd (s : String) (h : hasTripleNl s.data = false) :
    hasTripleNl (jsTrimEnd s).data = false := by
  unfold jsTrimEnd
  apply hasTripleNl_append_false _ ((s.data.reverse.takeWhile isJsWs).reverse)
  have hsplit : (s.data.reverse.dropWhile isJsWs).reverse
      ++ (s.data.reverse.takeWhile isJsWs).reverse = s.data := by
    rw [← List.reverse_append, List.takeWhile_append_dropWhile, List.reverse_reverse]
  rw [show (String.mk ((s.data.reverse.dropWhile isJsWs).reverse)).data
      = (s.data.reverse.dropWhile isJsWs).reverse from rfl, hsplit]
  exact h

/-- The final post-processing pipeline of `blocksToMarkdown` yields a
document with no three consecutive newlines and exactly one trailing
newline. -/
theorem pipeline_props (s : String) :
    hasTripleNl (jsTrimEnd (collapseNewlines s) ++ "\n").data = false
    ∧ endsSingleNl (jsTrimEnd (collapseNewlines s) ++ "\n") := by
  constructor
  · show hasTripleNl ((jsTrimEnd (collapseNewlines s)).data ++ ['\n']) = false
    apply hasTripleNl_concat_nl
    · exact hasTripleNl_trimEnd (collapseNewlines s) (hasTripleNl_collapse s)
    · intro hc
      have := jsTrimEnd_getLast_not_ws (collapseNewlines s) '\n' hc
      exact absurd this (by decide)
  · exact endsSingleNl_of_trim (collapseNewlines s)

/-- C5: for every sibling sequence of childless, non-table blocks whose
renders are all non-empty, the assembled body separates consecutive
renders by exactly one blank line, except that two consecutive list-item
blocks get no blank line; and every assembled document (any block tree,
with or without frontmatter) contains no run of three or more newlines and
ends with exactly one trailing newline. -/
theorem C5_blank_line_policy (bs : List Block)
    (good : ∀ b ∈ bs, b.children.isEmpty = true ∧ blockTypeName b.kind ≠ "table"
      ∧ renderBlock b ≠ "") :
    renderBlocks bs 0 = claimJoin bs
    ∧ ∀ (cs : List Block) (page : Option PageObject),
        hasTripleNl (blocksToMarkdown cs page).data = false
        ∧ endsSingleNl (blocksToMarkdown cs page) := by
  constructor
  · exact renderBlocks_good bs (fun b hb =>
      ⟨List.isEmpty_iff.mp (good b hb).1, (good b hb).2.1, (good b hb).2.2⟩)
  · intro cs page
    exact pipeline_props (jsJoin "\n" (match page with
      | some p => [buildFrontmatter p, renderBlocks cs 0]
      | none => [renderBlocks cs 0]))

/-- C5 witness: the theorem applied to a heading, a paragraph, and two
consecutive bulleted list items. -/
theorem C5_blank_line_policy_witness :
    renderBlocks
        [Block.mk "1" (.heading_1 [⟨.text "H", ⟨false, false, false, false, false, "d"⟩, "H", none⟩]) [],
          Block.mk "2" (.paragraph [⟨.text "p", ⟨false, false, false, false, false, "d"⟩, "p", none⟩]) [],
          Block.mk "3" (.bulleted_list_item [⟨.text "a", ⟨false, false, false, false, false, "d"⟩, "a", none⟩]) [],
          Block.mk "4" (.bulleted_list_item [⟨.text "b", ⟨false, false, false, false, false, "d"⟩, "b", none⟩]) []] 0
      = claimJoin
        [Block.mk "1" (.heading_1 [⟨.text "H", ⟨false, false, false, false, false, "d"⟩, "H", none⟩]) [],
          Block.mk "2" (.paragraph [⟨.text "p", ⟨false, false, false, false, false, "d"⟩, "p", none⟩]) [],
          Block.mk "3" (.bulleted_list_item [⟨.text "a", ⟨false, false, false, false, false, "d"⟩, "a", none⟩]) [],
          Block.mk "4" (.bulleted_list_item [⟨.text "b", ⟨false, false, false, false, false, "d"⟩, "b", none⟩]) []]
    ∧ ∀ (cs : List Block) (page : Option PageObject),
        hasTripleNl (blocksToMarkdown cs page).data = false
        ∧ endsSingleNl (blocksToMarkdown cs page) :=
  C5_blank_line_policy
    [Block.mk "1" (.heading_1 [⟨.text "H", ⟨false, false, false, false, false, "d"⟩, "H", none⟩]) [],
      Block.mk "2" (.paragraph [⟨.text "p", ⟨false, false, false, false, false, "d"⟩, "p", none⟩]) [],
      Block.mk "3" (.bulleted_list_item [⟨.text "a", ⟨false, false, false, false, false, "d"⟩, "a", none⟩]) [],
      Block.mk "4" (.bulleted_list_item [⟨.text "b", ⟨false, false, false, false, false, "d"⟩, "b", none⟩]) []]
    (by decide)

/-! ## Traversal orchestrator (src/run.ts, src/output/writer.ts,
src/notion/databases.ts) -/

/-- The character class `[<>:"/\\|?*\x00-\x1f]` of `sanitizeFilename`. -/
def isUnsafeChar (c : Char) : Bool :=
  c == '<' || c == '>' || c == ':' || c == '"' || c == '/' || c == '\\' ||
  c == '|' || c == '?' || c == '*' || decide (c.toNat ≤ 31)

/-- `replace(/\s+/g, " ")`: each maximal whitespace run becomes one
space. -/
def collapseWs : List Char → List Char
  | [] => []
  | c :: rest =>
    if isJsWs c then ' ' :: collapseWs (rest.dropWhile isJsWs)
    else c :: collapseWs rest
termination_by l => l.length
decreasing_by
  · simp_wf
    have := (List.dropWhile_sublist (l := rest) isJsWs).length_le
    omega
  · simp_wf

/-- `replace(/^\.+/, "_")`: a leading dot run becomes one underscore. -/
def stripLeadingDots (cs : List Char) : List Char :=
  match cs with
  | '.' :: _ => '_' :: cs.dropWhile (fun c => c == '.')
  | _ => cs

/-- `sanitizeFilename` from output/writer.ts. -/
def sanitizeFilename (name : String) : String :=
  let s1 := String.mk (name.data.map (fun c => if isUnsafeChar c then '_' else c))
  let s2 := String.mk (collapseWs s1.data)
  let s3 := String.mk (stripLeadingDots s2.data)
  let s4 := jsTrim s3
  let s5 := String.mk (s4.data.take 200)
  if s5 = "" then "Untitled" else s5

/-- A database container object (only its title rich text is read). -/
structure DatabaseObject where
  title : List RichTextItem

/-- One data-source schema property; `relation_database_id` is the
`prop.relation.database_id` payload read when the type tag is
`relation`. -/
structure DSProp where
  id : String
  type_ : String
  relation_database_id : String
deriving DecidableEq, Repr

/-- A data source object (only its properties map is read). -/
structure DataSourceObject where
  properties : List (String × DSProp)

/-- One relation edge discovered by `findRelationTargets`. -/
structure RelationTarget where
  propertyName : String
  targetDatabaseId : String
deriving DecidableEq, Repr

/-- `DatabaseData` from databases.ts: container, data source, derived
schema, and all entries. -/
structure DatabaseData where
  database : DatabaseObject
  dataSource : DataSourceObject
  propertySchema : PropertySchema
  entries : List PageObject

/-- `getDatabaseTitle` from databases.ts. -/
def getDatabaseTitle (db : DatabaseObject) : String :=
  if 0 < db.title.length then jsJoin "" (db.title.map (fun t => t.plainText))
  else "Untitled Database"

/-- `findRelationTargets` from databases.ts: relation-typed properties in
schema order with their target database ids. -/
def findRelationTargets (props : List (String × DSProp)) : List RelationTarget :=
  props.filterMap (fun p =>
    if p.2.type_ == "relation" then some ⟨p.1, p.2.relation_database_id⟩ else none)

/-- The remote gateway as a total environment (boundary model of §4.2 of
the spec): every reference resolves to a page object, a database payload,
and a materialized block tree; `localeLe` is the locale comparator used by
the CSV exporter. Fetch errors are outside claims C7/C8. -/
structure Env where
  pages : String → PageObject
  databases : String → DatabaseData
  blocks : String → List Block
  localeLe : String → String → Bool

/-- The observable traversal state: the visited set, the log of resource
fetches (one entry per page/database fetched), and the log of written
files (path, content), most recent first. -/
structure St where
  visited : List String
  fetches : List String
  writes : List (String × String)
deriving Repr

mutual

/-- `pullPage` from run.ts, in fueled form: `none` means the fuel ran out
(the real code has no such bound; claim C8 shows depth+1 fuel always
suffices). Visited references short-circuit; otherwise the page is marked
visited, fetched, rendered and written, and child resources are pulled
with one less depth. -/
def pullPageF : Nat → Env → String → String → Nat → St → Option St
  | 0, _, _, _, _, _ => none
  | fuel + 1, env, pageId, outputDir, maxDepth, st =>
    if pageId ∈ st.visited then some st
    else
      let st1 : St := ⟨pageId :: st.visited, pageId :: st.fetches, st.writes⟩
      let page := env.pages pageId
      let title := getPageTitle page
      let blocks := env.blocks pageId
      let markdown := blocksToMarkdown blocks (some page)
      let filename := sanitizeFilename title ++ ".md"
      let st2 : St := ⟨st1.visited, st1.fetches, (outputDir ++ "/" ++ filename, markdown) :: st1.writes⟩
      if 0 < maxDepth then
        pullChildResourcesF fuel env blocks (outputDir ++ "/" ++ sanitizeFilename title)
          (maxDepth - 1) st2
      else some st2
termination_by fuel => (fuel, 0, 0)

/-- `pullDatabase` from run.ts, fueled: visited short-circuit, then CSV
write, then the entries loop, then relation following. -/
def pullDatabaseF : Nat → Env → String → String → Nat → St → Option St
  | 0, _, _, _, _, _ => none
  | fuel + 1, env, databaseId, outputDir, maxDepth, st =>
    if databaseId ∈ st.visited then some st
    else
      let st1 : St := ⟨databaseId :: st.visited, databaseId :: st.fetches, st.writes⟩
      let data := env.databases databaseId
      let dbDir := sanitizeFilename (getDatabaseTitle data.database)
      let csv := entriesToCsv env.localeLe data.entries data.propertySchema
      let st2 : St := ⟨st1.visited, st1.fetches,
        (outputDir ++ "/" ++ dbDir ++ "/_index.csv", csv) :: st1.writes⟩
      match entriesLoopF fuel env data.entries outputDir dbDir maxDepth st2 with
      | none => none
      | some st3 =>
        if 0 < maxDepth then
          relationsLoopF fuel env (findRelationTargets data.dataSource.properties)
            outputDir maxDepth st3
        else some st3
termination_by fuel => (fuel, 0, 0)

/-- The per-entry loop of `pullDatabase`: entries with an empty block tree
are skipped; the rest get a markdown file and (within depth) a child
resource pull. -/
def entriesLoopF (fuel : Nat) (env : Env) : List PageObject → String → String → Nat → St → Option St
  | [], _, _, _, st => some st
  | entry :: rest, outputDir, dbDir, maxDepth, st =>
    let blocks := env.blocks entry.id
    if blocks.length == 0 then entriesLoopF fuel env rest outputDir dbDir maxDepth st
    else
      let title := getPageTitle entry
      let markdown := blocksToMarkdown blocks (some entry)
      let st1 : St := ⟨st.visited, st.fetches,
        (outputDir ++ "/" ++ dbDir ++ "/" ++ sanitizeFilename title ++ ".md", markdown) :: st.writes⟩
      if 0 < maxDepth then
        match pullChildResourcesF fuel env blocks
            (outputDir ++ "/" ++ dbDir ++ "/" ++ sanitizeFilename title) (maxDepth - 1) st1 with
        | none => none
        | some st2 => entriesLoopF fuel env rest outputDir dbDir maxDepth st2
      else entriesLoopF fuel env rest outputDir dbDir maxDepth st1
termination_by entries _ _ _ _ => (fuel, 2, sizeOf entries)

/-- The relation-following loop of `pullDatabase`: already-visited targets
are skipped, others are pulled with one less depth. -/
def relationsLoopF (fuel : Nat) (env : Env) : List RelationTarget → String → Nat → St → Option St
  | [], _, _, st => some st
  | rel :: rest, outputDir, maxDepth, st =>
    if rel.targetDatabaseId ∈ st.visited then
      relationsLoopF fuel env rest outputDir maxDepth st
    else
      match pullDatabaseF fuel env rel.targetDatabaseId outputDir (maxDepth - 1) st with
      | none => none
      | some st1 => relationsLoopF fuel env rest outputDir maxDepth st1
termination_by rels _ _ _ => (fuel, 2, sizeOf rels)

/-- `pullChildResources` from run.ts: child-page and child-database blocks
are pulled, and nested blocks are scanned recursively at the same depth. -/
def pullChildResourcesF (fuel : Nat) (env : Env) : List Block → String → Nat → St → Option St
  | [], _, _, st => some st
  | Block.mk bid kind children :: rest, outputDir, maxDepth, st =>
    let step :=
      if blockTypeName kind == "child_page" then
        pullPageF fuel env bid outputDir maxDepth st
      else if blockTypeName kind == "child_database" then
        pullDatabaseF fuel env bid outputDir maxDepth st
      else some st
    match step with
    | none => none
    | some st1 =>
      match (if 0 < children.length then
          pullChildResourcesF fuel env children outputDir maxDepth st1
        else some st1) with
      | none => none
      | some st2 => pullChildResourcesF fuel env rest outputDir maxDepth st2
termination_by blocks _ _ _ => (fuel, 1, sizeOf blocks)

end

/-! ## Claim C7: at-most-once processing -/

/-- The traversal invariant: no reference was ever fetched twice, and
every fetched reference is in the visited set (references are marked
visited before they are fetched). -/
def Inv (st : St) : Prop :=
  st.fetches.Nodup ∧ ∀ x ∈ st.fetches, x ∈ st.visited

/-- What one page/database preservation statement says at a given fuel. -/
def PagePres (fuel : Nat) : Prop :=
  ∀ (env : Env) (pid dir : String) (d : Nat) (st st' : St),
    pullPageF fuel env pid dir d st = some st' → Inv st →
    Inv st' ∧ st.visited ⊆ st'.visited

/-- The database analogue of `PagePres`. -/
def DbPres (fuel : Nat) : Prop :=
  ∀ (env : Env) (did dir : String) (d : Nat) (st st' : St),
    pullDatabaseF fuel env did dir d st = some st' → Inv st →
    Inv st' ∧ st.visited ⊆ st'.visited

theorem inv_mark (st : St) (id : String) (hi : Inv st) (hv : id ∉ st.visited) :
    Inv ⟨id :: st.visited, id :: st.fetches, st.writes⟩ := by
  constructor
  · exact List.nodup_cons.mpr ⟨fun hmem => hv (hi.2 id hmem), hi.1⟩
  · intro x hx
    rcases List.mem_cons.mp hx with hx | hx
    · exact hx ▸ List.mem_cons_self _ _
    · exact List.mem_cons_of_mem _ (hi.2 x hx)

theorem inv_writes (st : St) (w : List (String × String)) (hi : Inv st) :
    Inv ⟨st.visited, st.fetches, w⟩ := hi

theorem childPres_aux (fuel : Nat) (hPage : PagePres fuel) (hDb : DbPres fuel) :
    (bs : List Block) → ∀ (env : Env) (dir : String) (d : Nat) (st st' : St),
      pullChildResourcesF fuel env bs dir d st = some st' → Inv st →
      Inv st' ∧ st.visited ⊆ st'.visited
  | [] => by
    intro env dir d st st' h hi
    simp only [pullChildResourcesF] at h
    cases h
    exact ⟨hi, fun x hx => hx⟩
  | Block.mk bid kind children :: rest => by
    intro env dir d st st' h hi
    simp only [pullChildResourcesF] at h
    split at h
    · exact absurd h (by simp)
    · next st1 hstep =>
      have h1 : Inv st1 ∧ st.visited ⊆ st1.visited := by
        split at hstep
        · exact hPage env bid dir d st st1 hstep hi
        · split at hstep
          · exact hDb env bid dir d st st1 hstep hi
          · cases hstep
            exact ⟨hi, fun x hx => hx⟩
      split at h
      · exact absurd h (by simp)
      · next st2 hmid =>
        have h2 : Inv st2 ∧ st1.visited ⊆ st2.visited := by
          split at hmid
          · exact childPres_aux fuel hPage hDb children env dir d st1 st2 hmid h1.1
          · cases hmid
            exact ⟨h1.1, fun x hx => hx⟩
        have h3 := childPres_aux fuel hPage hDb rest env dir d st2 st' h h2.1
        exact ⟨h3.1, fun x hx => h3.2 (h2.2 (h1.2 hx))⟩
termination_by bs => sizeOf bs

theorem entriesPres_aux (fuel : Nat) (hChild : (bs : List Block) → ∀ (env : Env)
      (dir : String) (d : Nat) (st st' : St),
      pullChildResourcesF fuel env bs dir d st = some st' → Inv st →
      Inv st' ∧ st.visited ⊆ st'.visited) :
    (entries : List PageObject) → ∀ (env : Env) (o dbDir : String) (d : Nat) (st st' : St),
      entriesLoopF fuel env entries o dbDir d st = some st' → Inv st →
      Inv st' ∧ st.visited ⊆ st'.visited
  | [] => by
    intro env o dbDir d st st' h hi
    simp only [entriesLoopF] at h
    cases h
    exact ⟨hi, fun x hx => hx⟩
  | entry :: rest => by
    intro env o dbDir d st st' h hi
    simp only [entriesLoopF] at h
    split at h
    · exact entriesPres_aux fuel hChild rest env o dbDir d _ st' h hi
    · split at h
      · split at h
        · exact absurd h (by simp)
        · next st2 hmid =>
          have h2 := hChild _ env _ (d - 1) _ st2 hmid (inv_writes st _ hi)
          have h3 := entriesPres_aux fuel hChild rest env o dbDir d st2 st' h h2.1
          exact ⟨h3.1, fun x hx => h3.2 (h2.2 hx)⟩
      · exact entriesPres_aux fuel hChild rest env o dbDir d
          ⟨st.visited, st.fetches,
            (o ++ "/" ++ dbDir ++ "/" ++ sanitizeFilename (getPageTitle entry) ++ ".md",
              blocksToMarkdown (env.blocks entry.id) (some entry)) :: st.writes⟩
          st' h hi

theorem relationsPres_aux (fuel : Nat) (hDb : DbPres fuel) :
    (rels : List RelationTarget) → ∀ (env : Env) (dir : String) (d : Nat) (st st' : St),
      relationsLoopF fuel env rels dir d st = some st' → Inv st →
      Inv st' ∧ st.visited ⊆ st'.visited
  | [] => by
    intro env dir d st st' h hi
    simp only [relationsLoopF] at h
    cases h
    exact ⟨hi, fun x hx => hx⟩
  | rel :: rest => by
    intro env dir d st st' h hi
    simp only [relationsLoopF] at h
    split at h
    · exact relationsPres_aux fuel hDb rest env dir d st st' h hi
    · split at h
      · exact absurd h (by simp)
      · next st1 hmid =>
        have h1 := hDb env rel.targetDatabaseId dir (d - 1) st st1 hmid hi
        have h2 := relationsPres_aux fuel hDb rest env dir d st1 st' h h1.1
        exact ⟨h2.1, fun x hx => h2.2 (h1.2 hx)⟩

theorem invPres : ∀ fuel : Nat, PagePres fuel ∧ DbPres fuel := by
  intro fuel
  induction fuel using Nat.strong_induction_on with
  | _ fuel ih =>
    cases fuel with
    | zero =>
      constructor
      · intro env pid dir d st st' h
        simp only [pullPageF] at h
        exact fun _ => Option.noConfusion h
      · intro env did dir d st st' h
        simp only [pullDatabaseF] at h
        exact fun _ => Option.noConfusion h
    | succ n =>
      have hP : PagePres n := (ih n (Nat.lt_succ_self n)).1
      have hD : DbPres n := (ih n (Nat.lt_succ_self n)).2
      have hC := childPres_aux n hP hD
      have hE := entriesPres_aux n hC
      have hR := relationsPres_aux n hD
      constructor
      · intro env pid dir d st st' h hi
        simp only [pullPageF] at h
        split at h
        · next hv =>
          cases h
          exact ⟨hi, fun x hx => hx⟩
        · next hv =>
          have hi2 := inv_mark st pid hi hv
          split at h
          · have h1 := hC _ env _ (d - 1) _ st' h (by
              exact inv_writes _ _ hi2)
            exact ⟨h1.1, fun x hx => h1.2 (List.mem_cons_of_mem _ hx)⟩
          · cases h
            exact ⟨inv_writes _ _ hi2, fun x hx => List.mem_cons_of_mem _ hx⟩
      · intro env did dir d st st' h hi
        simp only [pullDatabaseF] at h
        split at h
        · next hv =>
          cases h
          exact ⟨hi, fun x hx => hx⟩
        · next hv =>
          have hi2 := inv_mark st did hi hv
          split at h
          · exact absurd h (by simp)
          · next st3 hmid =>
            have h3 := hE _ env _ _ d _ st3 hmid (inv_writes _ _ hi2)
            have hsub3 : st.visited ⊆ st3.visited := by
              intro x hx
              exact h3.2 (List.mem_cons_of_mem _ hx)
            split at h
            · have h4 := hR _ env _ d st3 st' h h3.1
              exact ⟨h4.1, fun x hx => h4.2 (hsub3 hx)⟩
            · cases h
              exact ⟨h3.1, hsub3⟩

/-- C7: a reference already in the visited set makes PullPage and
PullDatabase return immediately with the state unchanged (no fetch, no
write, no error), and every run preserves the invariant that the fetch log
is duplicate-free and contained in the (monotone) visited set — so no
reference is ever fetched twice nor its output written twice. -/
theorem C7_at_most_once (fuel : Nat) (env : Env) (id dir : String) (d : Nat) (st : St)
    (hv : id ∈ st.visited) :
    pullPageF (fuel + 1) env id dir d st = some st
    ∧ pullDatabaseF (fuel + 1) env id dir d st = some st
    ∧ (∀ (f : Nat) (e : Env) (r o : String) (dd : Nat) (s s' : St),
        s.fetches.Nodup → (∀ x ∈ s.fetches, x ∈ s.visited) →
        (pullPageF f e r o dd s = some s' ∨ pullDatabaseF f e r o dd s = some s') →
        s'.fetches.Nodup ∧ (∀ x ∈ s'.fetches, x ∈ s'.visited) ∧ s.visited ⊆ s'.visited) := by
  refine ⟨?_, ?_, ?_⟩
  · simp only [pullPageF]
    rw [if_pos hv]
  · simp only [pullDatabaseF]
    rw [if_pos hv]
  · intro f e r o dd s s' h1 h2 hor
    rcases hor with h | h
    · obtain ⟨hi, hsub⟩ := (invPres f).1 e r o dd s s' h ⟨h1, h2⟩
      exact ⟨hi.1, hi.2, hsub⟩
    · obtain ⟨hi, hsub⟩ := (invPres f).2 e r o dd s s' h ⟨h1, h2⟩
      exact ⟨hi.1, hi.2, hsub⟩

/-- A one-point environment for the C7 witness. -/
def envDemo : Env :=
  ⟨fun _ => ⟨"p", [], "t0", "t1"⟩, fun _ => ⟨⟨[]⟩, ⟨[]⟩, [], []⟩, fun _ => [], fun _ _ => true⟩

/-- C7 witness: the theorem applied at a concrete state that has already
visited the reference. -/
theorem C7_at_most_once_witness :
    pullPageF 1 envDemo "a" "out" 2 ⟨["a"], ["a"], []⟩ = some ⟨["a"], ["a"], []⟩
    ∧ pullDatabaseF 1 envDemo "a" "out" 2 ⟨["a"], ["a"], []⟩ = some ⟨["a"], ["a"], []⟩
    ∧ (∀ (f : Nat) (e : Env) (r o : String) (dd : Nat) (s s' : St),
        s.fetches.Nodup → (∀ x ∈ s.fetches, x ∈ s.visited) →
        (pullPageF f e r o dd s = some s' ∨ pullDatabaseF f e r o dd s = some s') →
        s'.fetches.Nodup ∧ (∀ x ∈ s'.fetches, x ∈ s'.visited) ∧ s.visited ⊆ s'.visited) :=
  C7_at_most_once 0 envDemo "a" "out" 2 ⟨["a"], ["a"], []⟩ (by decide)

/-! ## Claim C8: termination via depth-bounded fuel -/

/-- Sufficiency of fuel depth+1 for one page pull. -/
def PageEx (d : Nat) : Prop :=
  ∀ (env : Env) (id dir : String) (st : St),
    ∃ st', pullPageF (d + 1) env id dir d st = some st'

/-- Sufficiency of fuel depth+1 for one database pull. -/
def DbEx (d : Nat) : Prop :=
  ∀ (env : Env) (id dir : String) (st : St),
    ∃ st', pullDatabaseF (d + 1) env id dir d st = some st'

theorem childEx_aux (d : Nat) (hPage : PageEx d) (hDb : DbEx d) :
    (bs : List Block) → ∀ (env : Env) (dir : String) (st : St),
      ∃ st', pullChildResourcesF (d + 1) env bs dir d st = some st'
  | [] => by
    intro env dir st
    exact ⟨st, by simp only [pullChildResourcesF]⟩
  | Block.mk bid kind children :: rest => by
    intro env dir st
    have hstep : ∃ st1, (if blockTypeName kind == "child_page" then
          pullPageF (d + 1) env bid dir d st
        else if blockTypeName kind == "child_database" then
          pullDatabaseF (d + 1) env bid dir d st
        else some st) = some st1 := by
      split
      · exact hPage env bid dir st
      · split
        · exact hDb env bid dir st
        · exact ⟨st, rfl⟩
    obtain ⟨st1, hstep⟩ := hstep
    have hmid : ∃ st2, (if 0 < children.length then
          pullChildResourcesF (d + 1) env children dir d st1
        else some st1) = some st2 := by
      split
      · exact childEx_aux d hPage hDb children env dir st1
      · exact ⟨st1, rfl⟩
    obtain ⟨st2, hmid⟩ := hmid
    obtain ⟨st', hrest⟩ := childEx_aux d hPage hDb rest env dir st2
    refine ⟨st', ?_⟩
    simp only [pullChildResourcesF]
    rw [hstep]
    show (match (if 0 < children.length then
        pullChildResourcesF (d + 1) env children dir d st1
      else some st1) with
      | none => none
      | some st2 => pullChildResourcesF (d + 1) env rest dir d st2) = some st'
    rw [hmid]
    exact hrest
termination_by bs => sizeOf bs

theorem entriesEx_aux (d : Nat)
    (hChild : ∀ (bs : List Block) (env : Env) (dir : String) (st : St), 0 < d →
      ∃ st', pullChildResourcesF d env bs dir (d - 1) st = some st') :
    (entries : List PageObject) → ∀ (env : Env) (o dbDir : String) (st : St),
      ∃ st', entriesLoopF d env entries o dbDir d st = some st'
  | [] => by
    intro env o dbDir st
    exact ⟨st, by simp only [entriesLoopF]⟩
  | entry :: rest => by
    intro env o dbDir st
    by_cases hb : ((env.blocks entry.id).length == 0) = true
    · obtain ⟨st', hrest⟩ := entriesEx_aux d hChild rest env o dbDir st
      refine ⟨st', ?_⟩
      simp only [entriesLoopF]
      rw [if_pos hb]
      exact hrest
    · by_cases hd : 0 < d
      · obtain ⟨st2, hmid⟩ := hChild (env.blocks entry.id) env
          (o ++ "/" ++ dbDir ++ "/" ++ sanitizeFilename (getPageTitle entry))
          ⟨st.visited, st.fetches,
            (o ++ "/" ++ dbDir ++ "/" ++ sanitizeFilename (getPageTitle entry) ++ ".md",
              blocksToMarkdown (env.blocks entry.id) (some entry)) :: st.writes⟩ hd
        obtain ⟨st', hrest⟩ := entriesEx_aux d hChild rest env o dbDir st2
        refine ⟨st', ?_⟩
        simp only [entriesLoopF]
        rw [if_neg hb, if_pos hd]
        rw [hmid]
        exact hrest
      · obtain ⟨st', hrest⟩ := entriesEx_aux d hChild rest env o dbDir
          ⟨st.visited, st.fetches,
            (o ++ "/" ++ dbDir ++ "/" ++ sanitizeFilename (getPageTitle entry) ++ ".md",
              blocksToMarkdown (env.blocks entry.id) (some entry)) :: st.writes⟩
        refine ⟨st', ?_⟩
        simp only [entriesLoopF]
        rw [if_neg hb, if_neg hd]
        exact hrest

theorem relationsEx_aux (d : Nat)
    (hDb : ∀ (env : Env) (id dir : String) (st : St),
      ∃ st', pullDatabaseF d env id dir (d - 1) st = some st') :
    (rels : List RelationTarget) → ∀ (env : Env) (dir : String) (st : St),
      ∃ st', relationsLoopF d env rels dir d st = some st'
  | [] => by
    intro env dir st
    exact ⟨st, by simp only [relationsLoopF]⟩
  | rel :: rest => by
    intro env dir st
    by_cases hv : rel.targetDatabaseId ∈ st.visited
    · obtain ⟨st', hrest⟩ := relationsEx_aux d hDb rest env dir st
      refine ⟨st', ?_⟩
      simp only [relationsLoopF]
      rw [if_pos hv]
      exact hrest
    · obtain ⟨st1, hdb⟩ := hDb env rel.targetDatabaseId dir st
      obtain ⟨st', hrest⟩ := relationsEx_aux d hDb rest env dir st1
      refine ⟨st', ?_⟩
      simp only [relationsLoopF]
      rw [if_neg hv, hdb]
      exact hrest

theorem travEx : ∀ d : Nat, PageEx d ∧ DbEx d := by
  intro d
  induction d using Nat.strong_induction_on with
  | _ d ih =>
    have hChild : ∀ (bs : List Block) (env : Env) (dir : String) (st : St), 0 < d →
        ∃ st', pullChildResourcesF d env bs dir (d - 1) st = some st' := by
      intro bs env dir st hd
      have hsucc : d - 1 + 1 = d := by omega
      have := childEx_aux (d - 1) (ih (d - 1) (by omega)).1 (ih (d - 1) (by omega)).2
        bs env dir st
      rw [hsucc] at this
      exact this
    constructor
    · intro env pid dir st
      by_cases hv : pid ∈ st.visited
      · exact ⟨st, by simp only [pullPageF]; rw [if_pos hv]⟩
      · by_cases hd : 0 < d
        · obtain ⟨st', h⟩ := hChild (env.blocks pid) env
            (dir ++ "/" ++ sanitizeFilename (getPageTitle (env.pages pid)))
            ⟨pid :: st.visited, pid :: st.fetches,
              (dir ++ "/" ++ (sanitizeFilename (getPageTitle (env.pages pid)) ++ ".md"),
                blocksToMarkdown (env.blocks pid) (some (env.pages pid))) :: st.writes⟩ hd
          refine ⟨st', ?_⟩
          simp only [pullPageF]
          rw [if_neg hv, if_pos hd]
          exact h
        · refine ⟨⟨pid :: st.visited, pid :: st.fetches,
              (dir ++ "/" ++ (sanitizeFilename (getPageTitle (env.pages pid)) ++ ".md"),
                blocksToMarkdown (env.blocks pid) (some (env.pages pid))) :: st.writes⟩, ?_⟩
          simp only [pullPageF]
          rw [if_neg hv, if_neg hd]
    · intro env did dir st
      by_cases hv : did ∈ st.visited
      · exact ⟨st, by simp only [pullDatabaseF]; rw [if_pos hv]⟩
      · obtain ⟨st3, hE⟩ := entriesEx_aux d hChild (env.databases did).entries env dir
          (sanitizeFilename (getDatabaseTitle (env.databases did).database))
          ⟨did :: st.visited, did :: st.fetches,
            (dir ++ "/" ++ sanitizeFilename (getDatabaseTitle (env.databases did).database)
                ++ "/_index.csv",
              entriesToCsv env.localeLe (env.databases did).entries
                (env.databases did).propertySchema) :: st.writes⟩
        by_cases hd : 0 < d
        · have hDbPrev : ∀ (env : Env) (id dir : String) (st : St),
              ∃ st', pullDatabaseF d env id dir (d - 1) st = some st' := by
            intro env' id' dir' st'
            have hsucc : d - 1 + 1 = d := by omega
            have := (ih (d - 1) (by omega)).2 env' id' dir' st'
            rw [hsucc] at this
            exact this
          obtain ⟨st', hL⟩ := relationsEx_aux d hDbPrev
            (findRelationTargets (env.databases did).dataSource.properties) env dir st3
          refine ⟨st', ?_⟩
          simp only [pullDatabaseF]
          rw [if_neg hv, hE]
          show (if 0 < d then relationsLoopF d env
              (findRelationTargets (env.databases did).dataSource.properties) dir d st3
            else some st3) = some st'
          rw [if_pos hd]
          exact hL
        · refine ⟨st3, ?_⟩
          simp only [pullDatabaseF]
          rw [if_neg hv, hE]
          show (if 0 < d then relationsLoopF d env
              (findRelationTargets (env.databases did).dataSource.properties) dir d st3
            else some st3) = some st3
          rw [if_neg hd]

/-- C8: the mutually recursive traversal terminates on every environment:
fuel depth+1 always suffices, every crossing to another resource consumes
one unit of both depth and fuel, and visited references short-circuit, so
cyclic reference graphs cannot cause divergence. -/
theorem C8_termination (env : Env) (id dir : String) (d : Nat) (st : St) :
    (∃ (fuel : Nat) (st' : St), pullPageF fuel env id dir d st = some st')
    ∧ (∃ (fuel : Nat) (st' : St), pullDatabaseF fuel env id dir d st = some st') := by
  constructor
  · obtain ⟨st', h⟩ := (travEx d).1 env id dir st
    exact ⟨d + 1, st', h⟩
  · obtain ⟨st', h⟩ := (travEx d).2 env id dir st
    exact ⟨d + 1, st', h⟩

/-- The claim's worked example, fully evaluated: the header comes out as
`Name,Apple,Zebra` regardless of the schema's iteration order. -/
theorem csv_header_example :
    entriesToCsv (fun a b => decide (a ≤ b)) []
        [("Zebra", ⟨"z", "text", "Zebra"⟩), ("Apple", ⟨"a", "text", "Apple"⟩),
          ("Name", ⟨"n", "title", "Name"⟩)]
      = "Name,Apple,Zebra\n" := by
  simp [entriesToCsv, sortColumns, sortColumnsLoop, jsJoin, escapeField,
    List.mergeSort, List.merge]

end NP
